import Mathlib

/-!
Shallow embedding of the GenNews question-generation core
(`src/api/ollama_client.py`) in Lean 4, together with theorems settling
the frozen claims about the natural-language specification.

Python records (dicts) are modelled as a `Question` structure with
optional fields; Python numbers are modelled exactly as `Int`/`ℚ`
(the programs only manipulate decimal literals, so rational arithmetic
is a faithful model of the float arithmetic actually performed);
Python exceptions are modelled as `Option`/explicit result values;
in-place mutation of a record is modelled by returning the updated
record alongside the result.
-/

set_option maxRecDepth 100000

namespace GenNews

/-! ## Character-list utilities

Python string operations are modelled on `List Char`.  Each specific
regular expression used by the source is hand-translated into a
dedicated scanner matching its (deterministic) semantics.
-/

abbrev CL := List Char

def apos : Char := Char.ofNat 39

def strFindAux (t : Char) : CL → Nat → Option Nat
  | [], _ => none
  | c :: cs, i => if c = t then some i else strFindAux t cs (i + 1)

/-- Index of the first occurrence of a character, as Python `str.find` (none for -1). -/
def strFind (cs : CL) (t : Char) : Option Nat := strFindAux t cs 0

/-- Index of the last occurrence of a character, as Python `str.rfind` (none for -1). -/
def strRFind (cs : CL) (t : Char) : Option Nat :=
  match strFind cs.reverse t with
  | none => none
  | some i => some (cs.length - 1 - i)

/-- Python slice `s[a:b]` for `0 ≤ a ≤ b` (the only case the source uses). -/
def sliceCL (cs : CL) (a b : Nat) : CL := (cs.drop a).take (b - a)

/-- Does `pre` occur at the start of `cs`? -/
def startsWithCL : CL → CL → Bool
  | _, [] => true
  | [], _ :: _ => false
  | c :: cs, p :: ps => c = p && startsWithCL cs ps

/-- Python `pat in s` substring test. -/
def isSubstrCL (pat : CL) : CL → Bool
  | [] => pat.isEmpty
  | c :: cs => startsWithCL (c :: cs) pat || isSubstrCL pat cs

/-- Substring test on `String`s, as Python `pat in s`. -/
def strIn (pat s : String) : Bool := isSubstrCL pat.toList s.toList

/-- If `pat` occurs at the start of `cs`, the remainder after it. -/
def dropPre : CL → CL → Option CL
  | [], s => some s
  | _ :: _, [] => none
  | p :: ps, c :: cs => if c = p then dropPre ps cs else none

def replaceAllCL (pat rep : CL) : Nat → CL → CL
  | _, [] => []
  | 0, s => s
  | fuel + 1, c :: cs =>
    match dropPre pat (c :: cs) with
    | some rest => rep ++ replaceAllCL pat rep fuel rest
    | none => c :: replaceAllCL pat rep fuel cs

/-- Python `s.replace(pat, rep)`: all non-overlapping occurrences, left to right.
The source never calls it with an empty pattern. -/
def pyReplace (s pat rep : String) : String :=
  ⟨replaceAllCL pat.toList rep.toList s.length s.toList⟩

/-- Python `s.rstrip(t)` for a single strip character. -/
def rstripChar (t : Char) (cs : CL) : CL :=
  (cs.reverse.dropWhile (fun c => c = t)).reverse

/-- Python `s.count(c)` for a single character. -/
def countChar (t : Char) (cs : CL) : Nat := cs.countP (fun c => c = t)

def toLowerCL (cs : CL) : CL := cs.map Char.toLower
def toUpperCL (cs : CL) : CL := cs.map Char.toUpper

/-- Python `s.lower()` (the source only feeds it ASCII). -/
def strLower (s : String) : String := ⟨toLowerCL s.toList⟩

/-- Python `s.upper()` (the source only feeds it ASCII). -/
def strUpper (s : String) : String := ⟨toUpperCL s.toList⟩

/-- Whitespace as matched by Python's `\s` regex class and `str.strip()` (ASCII part). -/
def isPyWs (c : Char) : Bool :=
  c = ' ' || c = '\t' || c = '\n' || c = '\r' || c = Char.ofNat 11 || c = Char.ofNat 12

/-- Word characters as matched by Python's `\w` regex class (ASCII part). -/
def isWordChar (c : Char) : Bool := c.isAlphanum || c = '_'

def digitVal (c : Char) : Nat := c.toNat - '0'.toNat

def digitsVal (cs : CL) : Nat := cs.foldl (fun a c => a * 10 + digitVal c) 0

/-! ## Kernel-evaluable rational arithmetic

Batteries marks the `ℚ` field operations `@[irreducible]`, which blocks
`decide`-style evaluation of the embedding on concrete inputs.  The
operations below build the same rationals through `Rat.divInt`, which
does evaluate; the lemmas after them prove they agree with the ordinary
operations. -/

def qMul (a b : ℚ) : ℚ := Rat.divInt (a.num * b.num) ((a.den : Int) * b.den)

def qSub (a b : ℚ) : ℚ := Rat.divInt (a.num * b.den - b.num * a.den) ((a.den : Int) * b.den)

def qNeg (a : ℚ) : ℚ := Rat.divInt (-a.num) (a.den : Int)

def qDiv (a b : ℚ) : ℚ := Rat.divInt (a.num * b.den) ((a.den : Int) * b.num)

def qAbs (a : ℚ) : ℚ := if a < 0 then qNeg a else a

/-- Python `max(a, b)` on two numbers. -/
def qMax (a b : ℚ) : ℚ := if a ≤ b then b else a

/-- The value `0.5` (written `* 0.5` in the source). -/
def qHalf : ℚ := mkRat 1 2

/-- The value `0.2` (the 20% diversity threshold).  CPython compares
against the binary double nearest to 0.2; the divergence at that one
boundary is immaterial to every theorem below. -/
def qPoint2 : ℚ := mkRat 1 5

/-! ## Python `float(·)` on strings

`float(s)` strips surrounding whitespace, takes an optional sign and a
decimal mantissa with optional fractional part and exponent.  Non-finite
literals (`inf`, `nan`) and digit underscores are not modelled: no input
the theorems touch contains them. -/

def parseExpPart : CL → Option Int
  | [] => some 0
  | c :: cs =>
    if c = 'e' ∨ c = 'E' then
      match cs with
      | '+' :: ds => if ds ≠ [] ∧ ds.all Char.isDigit then some (digitsVal ds) else none
      | '-' :: ds => if ds ≠ [] ∧ ds.all Char.isDigit then some (-(digitsVal ds : Int)) else none
      | ds => if ds ≠ [] ∧ ds.all Char.isDigit then some (digitsVal ds) else none
    else none

/-- The rational denoted by the decimal text `⟨ip⟩.⟨fp⟩` times `10 ^ e`. -/
def decToRat (ip fp : CL) (e : Int) : ℚ :=
  let k := fp.length
  let m : Int := (digitsVal ip * 10 ^ k + digitsVal fp : Nat)
  let p : Int := e - k
  if 0 ≤ p then Rat.divInt (m * (10 : Int) ^ p.toNat) 1
  else Rat.divInt m ((10 : Int) ^ (-p).toNat)

def parseUFloat (cs : CL) : Option ℚ :=
  let ip := cs.takeWhile Char.isDigit
  let r1 := cs.dropWhile Char.isDigit
  match r1 with
  | '.' :: r2 =>
    let fp := r2.takeWhile Char.isDigit
    let r3 := r2.dropWhile Char.isDigit
    if ip.isEmpty && fp.isEmpty then none
    else (parseExpPart r3).map (decToRat ip fp)
  | _ =>
    if ip.isEmpty then none
    else (parseExpPart r1).map (decToRat ip [])

/-- Python `float(s)` for a string argument (`None` models `ValueError`). -/
def pyFloatOfString (s : String) : Option ℚ :=
  let cs := (s.toList.dropWhile isPyWs).reverse.dropWhile isPyWs |>.reverse
  match cs with
  | '+' :: r => parseUFloat r
  | '-' :: r => (parseUFloat r).map qNeg
  | r => parseUFloat r

/-! ## `datetime.strptime(s, "%Y/%m/%d")`

CPython's `_strptime` compiles `%Y` to four digits, `%m` to
`1[0-2]|0[1-9]|[1-9]`, `%d` to `3[01]|[12]\d|0[1-9]|[1-9]`, requires the
regex to consume the whole string, and then `datetime(y, m, d)` rejects
impossible calendar dates.  The alternation backtracking is modelled by
candidate lists tried in the regex's order. -/

structure Date where
  y : Nat
  m : Nat
  d : Nat
deriving DecidableEq, Repr

def parse4Digits : CL → Option (Nat × CL)
  | a :: b :: c :: d :: rest =>
    if a.isDigit && b.isDigit && c.isDigit && d.isDigit then
      some (digitsVal [a, b, c, d], rest)
    else none
  | _ => none

def monthCands : CL → List (Nat × CL)
  | [] => []
  | '1' :: c2 :: r2 =>
    (if '0' ≤ c2 ∧ c2 ≤ '2' then [(10 + digitVal c2, r2)] else []) ++ [(1, c2 :: r2)]
  | '0' :: c2 :: r2 =>
    if '1' ≤ c2 ∧ c2 ≤ '9' then [(digitVal c2, r2)] else []
  | c :: rest =>
    if '1' ≤ c ∧ c ≤ '9' then [(digitVal c, rest)] else []

def dayCands : CL → List (Nat × CL)
  | [] => []
  | '3' :: c2 :: r2 =>
    (if c2 = '0' ∨ c2 = '1' then [(30 + digitVal c2, r2)] else []) ++ [(3, c2 :: r2)]
  | '0' :: c2 :: r2 =>
    if '1' ≤ c2 ∧ c2 ≤ '9' then [(digitVal c2, r2)] else []
  | c :: c2 :: r2 =>
    (if ('1' ≤ c ∧ c ≤ '2') ∧ c2.isDigit then [(digitVal c * 10 + digitVal c2, r2)] else []) ++
      (if '1' ≤ c ∧ c ≤ '9' then [(digitVal c, c2 :: r2)] else [])
  | c :: rest =>
    if '1' ≤ c ∧ c ≤ '9' then [(digitVal c, rest)] else []

def isLeapYear (y : Nat) : Bool := (y % 4 = 0 && y % 100 ≠ 0) || y % 400 = 0

def daysInMonth (y m : Nat) : Nat :=
  if m = 2 then (if isLeapYear y then 29 else 28)
  else if m = 4 ∨ m = 6 ∨ m = 9 ∨ m = 11 then 30
  else 31

def mkValidDate (y m d : Nat) : Option Date :=
  if 1 ≤ y ∧ 1 ≤ d ∧ d ≤ daysInMonth y m then some ⟨y, m, d⟩ else none

/-- `datetime.strptime(s, "%Y/%m/%d")`, `none` modelling `ValueError`. -/
def strptimeYMD (s : String) : Option Date :=
  match parse4Digits s.toList with
  | none => none
  | some (y, rest) =>
    match rest with
    | '/' :: r2 =>
      (monthCands r2).findSome? (fun mc =>
        match mc.2 with
        | '/' :: r4 =>
          (dayCands r4).findSome? (fun dc =>
            if dc.2 = [] then mkValidDate y mc.1 dc.1 else none)
        | _ => none)
    | _ => none

/-- `datetime` comparison is lexicographic on (year, month, day). -/
def dateLe (a b : Date) : Bool :=
  a.y < b.y || (a.y = b.y && (a.m < b.m || (a.m = b.m && a.d ≤ b.d)))

def dateInRange (d : Date) : Bool := dateLe ⟨2024, 12, 1⟩ d && dateLe d ⟨2025, 6, 30⟩

/-! ## Python values and records -/

/-- Scalar Python values. -/
inductive PyScalar where
  | s (v : String)
  | i (v : Int)
  | f (v : ℚ)
  | b (v : Bool)
  | null
deriving DecidableEq, Repr

/-- The subset of Python values that can sit in a record field after
`json.loads`.  Dict-valued fields and nested lists are not modelled:
like flat lists they fail every numeric conversion the validators
apply, so they behave as the modelled list case. -/
inductive PyVal where
  | s (v : String)
  | i (v : Int)
  | f (v : ℚ)
  | arr (v : List PyScalar)
  | b (v : Bool)
  | null
deriving DecidableEq, Repr

/-- Python `str(·)` of a float.  CPython prints the shortest round-tripping
decimal; the precise rendering is irrelevant to every theorem below (it is
only compared for equality inside uniqueness keys), so integral values are
rendered the way CPython renders them and other rationals get a positional
fallback rendering. -/
def floatStr (q : ℚ) : String :=
  if q.den = 1 then toString q.num ++ ".0" else toString q.num ++ "/" ++ toString q.den

def pyStrScalar : PyScalar → String
  | .s v => v
  | .i v => toString v
  | .f v => floatStr v
  | .b v => if v then "True" else "False"
  | .null => "None"

/-- Python `str(·)` on a record field value.  List elements are rendered
without Python's `repr` quoting: the rendering is only ever fed to
`float(·)`, which rejects any text starting with a bracket either way. -/
def pyStr : PyVal → String
  | .s v => v
  | .i v => toString v
  | .f v => floatStr v
  | .arr v => "[" ++ String.intercalate ", " (v.map pyStrScalar) ++ "]"
  | .b v => if v then "True" else "False"
  | .null => "None"

/-- Python `float(·)` on a scalar (`none` models `ValueError`/`TypeError`). -/
def pyFloatScalar : PyScalar → Option ℚ
  | .s v => pyFloatOfString v
  | .i v => some (v : ℚ)
  | .f v => some v
  | .b v => some (if v then 1 else 0)
  | .null => none

/-- Python `float(·)` on a record field value (`none` models
`ValueError`/`TypeError`). -/
def pyFloatVal : PyVal → Option ℚ
  | .s v => pyFloatOfString v
  | .i v => some (v : ℚ)
  | .f v => some v
  | .arr _ => none
  | .b v => some (if v then 1 else 0)
  | .null => none

/-- A question record: a Python dict with these (possibly absent) keys.
Fields the source reads as strings are modelled as strings (a non-string
in them would make the validators' catch-all except reject the record,
which coincides with the `none` path). -/
structure Question where
  question : Option String
  timeframe : Option String
  category : Option String
  metric : Option String
  target_value : Option PyVal
  measurement_source : Option PyVal
deriving DecidableEq, Repr

structure CryptoInfo where
  name : String
  price : ℚ
deriving DecidableEq, Repr

/-- `crypto_data`: a dict in insertion order.  `None` and `{}` behave
identically everywhere the source uses it (truthiness and iteration), so
both are modelled by `[]`. -/
abbrev CryptoData := List (String × CryptoInfo)

/-! ## Entity-name normalization in `validate_single_question`

Each `re.sub` call is modelled by a scanner for its specific pattern:
all patterns are a literal followed by optional literal groups, so
greedy matching without backtracking is exact. -/

def optTail (lit : CL) (cs : CL) : CL :=
  match dropPre lit cs with
  | some r => r
  | none => cs

/-- Generic engine for `re.sub`: at each position try the matcher; on a
match emit the replacement and continue after the consumed text.  Every
matcher used consumes at least one character, so `length + 1` fuel is
exact. -/
def subScan (m : CL → Option (CL × CL)) : Nat → CL → CL
  | 0, cs => cs
  | _, [] => []
  | fuel + 1, c :: cs =>
    match m (c :: cs) with
    | some (rep, rest) => rep ++ subScan m fuel rest
    | none => c :: subScan m fuel (c :: cs).tail

def applySub (m : CL → Option (CL × CL)) (s : String) : String :=
  ⟨subScan m (s.toList.length + 1) s.toList⟩

/-- Matcher for `Apple(?:'s)?(?: Inc\.?)?(?: stock)?(?: price)?` with
replacement `Apple (AAPL.US)`. -/
def appleSub (cs : CL) : Option (CL × CL) :=
  match dropPre "Apple".toList cs with
  | none => none
  | some r0 =>
    let r1 := optTail [apos, 's'] r0
    let r2 := match dropPre " Inc".toList r1 with
              | some ri => optTail ['.'] ri
              | none => r1
    let r3 := optTail " stock".toList r2
    let r4 := optTail " price".toList r3
    some ("Apple (AAPL.US)".toList, r4)

/-- Matcher for `Microsoft(?:'s)?(?: Corp\.?)?(?: stock)?(?: price)?` with
replacement `Microsoft (MSFT.US)`. -/
def microsoftSub (cs : CL) : Option (CL × CL) :=
  match dropPre "Microsoft".toList cs with
  | none => none
  | some r0 =>
    let r1 := optTail [apos, 's'] r0
    let r2 := match dropPre " Corp".toList r1 with
              | some ri => optTail ['.'] ri
              | none => r1
    let r3 := optTail " stock".toList r2
    let r4 := optTail " price".toList r3
    some ("Microsoft (MSFT.US)".toList, r4)

/-- Matcher for the per-asset pattern `{name}(?:'s)?(?: price)?` with
replacement `{name} ({symbol})`; asset names contain no regex
metacharacters and are nonempty. -/
def cryptoNameSub (nm sym : String) (cs : CL) : Option (CL × CL) :=
  match dropPre nm.toList cs with
  | none => none
  | some r0 =>
    let r1 := optTail [apos, 's'] r0
    let r2 := optTail " price".toList r1
    some ((nm ++ " (" ++ sym ++ ")").toList, r2)

/-- The in-place rewriting of `question['question']` performed at
`validate_single_question` lines 366-377. -/
def normalizeQuestionText (cryptoData : CryptoData) (s : String) : String :=
  let s1 := applySub appleSub s
  let s2 := applySub microsoftSub s1
  cryptoData.foldl (fun acc p => applySub (cryptoNameSub p.2.name p.1) acc) s2

/-! ## `validate_single_question` (the pool-profile validator) -/

def validCategories : List String :=
  ["economic_indicator", "social_events", "cryptocurrency", "financial_market"]

/-- Lines 405-428: the category-specific range checks of
`validate_single_question` on the coerced value `v` and the normalized
question text `qt1` (crypto: every supplied symbol occurring in the text
must bracket `v` within [0.5x, 2.0x] of its price; social: [50, 500];
economic: keyword-selected gdp/unemployment ranges; anything else
passes). -/
def single_range_ok (cat met : String) (cryptoData : CryptoData)
    (qt1 : String) (v : ℚ) : Bool :=
  if cat = "cryptocurrency" ∧ cryptoData ≠ [] then
    cryptoData.all (fun p =>
      !(strIn p.1 qt1) || (qMul p.2.price qHalf ≤ v && v ≤ qMul p.2.price 2))
  else if cat = "social_events" then
    (50 : ℚ) ≤ v && v ≤ 500
  else if cat = "economic_indicator" then
    if strIn "gdp" (strLower met) then (20000 : ℚ) ≤ v && v ≤ 50000
    else if strIn "unemployment" (strLower met) then (2 : ℚ) ≤ v && v ≤ 15
    else true
  else true

/-- `validate_single_question(question, crypto_data, countries)` from
`src/api/ollama_client.py` lines 354-451.  The boolean is the return
value; the `Question` is the (possibly mutated) input record. -/
def validate_single_question (q : Question) (cryptoData : CryptoData)
    (countries : List String) : Bool × Question :=
  match q.question, q.timeframe, q.category, q.metric, q.target_value with
  | some qt, some tf, some cat, some met, some tv =>
    let qt1 := normalizeQuestionText cryptoData qt
    let q1 : Question := { q with question := some qt1 }
    if cat ∉ validCategories then (false, q1)
    else
      match strptimeYMD tf with
      | none => (false, q1)
      | some dte =>
        if ¬ dateInRange dte then (false, q1)
        else
          match pyFloatOfString (pyReplace (pyReplace (pyStr tv) "$" "") "," "") with
          | none => (false, q1)
          | some v =>
            let q2 : Question := { q1 with target_value := some (PyVal.f v) }
            if ¬ single_range_ok cat met cryptoData qt1 v then (false, q2)
            else if cat = "social_events" ∧ countries ≠ [] then
              if countries.any (fun c => strIn c (strUpper qt1)) then (true, q2)
              else (false, q2)
            else (true, q2)
  | _, _, _, _, _ => (false, q)

/-! ## `validate_question_for_pool` (lines 1166-1261) -/

/-- Lines 1193-1201: the `target_value` conversion of
`validate_question_for_pool` — the first element for a list value,
`float(·)` otherwise; `none` models the caught
`ValueError`/`TypeError`/`IndexError`. -/
def poolTargetFloat : PyVal → Option ℚ
  | .arr l =>
    match l.head? with
    | some h => pyFloatScalar h
    | none => none
  | tv => pyFloatVal tv

def poolEconRanges : List (String × ℚ × ℚ) :=
  [("gdp", 20000, 50000), ("unemployment_rate", 2, 15), ("inflation_rate", -2, 15),
   ("cpi", 200, 400), ("treasury_rate", -5, 10), ("industrial_production", 80, 120)]

/-- `validate_question_for_pool(question, used_questions, crypto_data)`:
the pool-named validator (pure — it never mutates its argument). -/
def validate_question_for_pool (q : Question) (usedQuestions : List String)
    (cryptoData : CryptoData) : Bool :=
  match q.question, q.timeframe, q.category, q.metric, q.target_value with
  | some qt, some tf, some cat, some met, some tv =>
    if qt ∈ usedQuestions then false
    else
      match strptimeYMD tf with
      | none => false
      | some dte =>
        if ¬ dateInRange dte then false
        else
          let metL := strLower met
          match poolTargetFloat tv with
          | none => false
          | some v =>
            if cat = "economic_indicator" then
              match poolEconRanges.find? (fun r => strIn r.1 metL) with
              | some r => decide (r.2.1 ≤ v ∧ v ≤ r.2.2)
              | none => true
            else if cat = "cryptocurrency" then
              match cryptoData.find? (fun p => strIn p.1 qt || strIn p.2.name qt) with
              | some p => decide (qMul p.2.price qHalf ≤ v ∧ v ≤ qMul p.2.price 2)
              | none => false
            else if cat = "social_events" then
              decide ((50 : ℚ) ≤ v ∧ v ≤ 500)
            else if cat = "financial_market" then
              if strIn "price" metL then decide (0 < v)
              else if strIn "volume" metL then decide ((1000 : ℚ) ≤ v)
              else if strIn "market_cap" metL then decide ((1000000 : ℚ) ≤ v)
              else true
            else true
  | _, _, _, _, _ => false

/-! ## Association-list dictionaries

Python dicts keyed by category names, in insertion order. -/

def alookup {α : Type} (l : List (String × α)) (k : String) : Option α :=
  (l.find? (fun p => p.1 = k)).map (·.2)

def alookupD {α : Type} (l : List (String × α)) (k : String) (d : α) : α :=
  (alookup l k).getD d

/-- `category_counts[category] += 1` on the first binding of the key. -/
def abump : List (String × Nat) → String → List (String × Nat)
  | [], _ => []
  | p :: ps, k => if p.1 = k then (p.1, p.2 + 1) :: ps else p :: abump ps k

/-! ## `generate_questions_pool` (lines 453-632)

The generative model is an external collaborator: each loop iteration is
driven by one `GenEvent` of an input trace — either the generation call
failed after its local retries (the `except` path) or it produced a
batch of parsed candidate records (`json.loads` of the repaired text;
a `JSONDecodeError` iteration mutates nothing at all and so needs no
event).  Everything the loop itself does to its state is modelled
exactly. -/

/-- Lines 460-466: with an empty ACLED country list, `social_events` is
removed in place (Python `list.remove`: first occurrence) from the
caller's `required_categories` list. -/
def updateRequiredCategories (acledCountries : List String) (required : List String) :
    List String :=
  if acledCountries.isEmpty then
    if "social_events" ∈ required then required.erase "social_events" else required
  else required

/-- Lines 479-480: the default `category_targets`,
`{cat: num_questions // len(required_categories) for cat in required_categories}`. -/
def category_targets_default (numQuestions : Nat) (req : List String) :
    List (String × Nat) :=
  req.map (fun c => (c, numQuestions / req.length))

/-- Line 483: `pool_targets = {cat: target * 4 for cat, target in category_targets.items()}`. -/
def pool_targets (ct : List (String × Nat)) : List (String × Nat) :=
  ct.map (fun p => (p.1, p.2 * 4))

/-- Lines 578-584: the uniqueness key
`(category, metric, timeframe, str(float(target_value)))`; `none` models
the `ValueError` of an unparseable target (never reached on validated
records). -/
def question_key (q : Question) : Option (String × String × String × String) :=
  match q.category, q.metric, q.timeframe, q.target_value with
  | some c, some m, some t, some tv => (pyFloatVal tv).map (fun v => (c, m, t, floatStr v))
  | _, _, _, _ => none

structure PoolState where
  pool : List Question
  used : List (String × String × String × String)
  counts : List (String × Nat)
  attempts : Nat
deriving DecidableEq, Repr

def initPoolState (req : List String) : PoolState :=
  ⟨[], [], req.map (fun c => (c, 0)), 0⟩

/-- Have all categories reached their pool targets (lines 502-507 and 599-603)?
A caller-supplied `category_targets` whose keys differ from
`required_categories` would raise `KeyError` in the source; the model
assumes matching keys, which the default path guarantees. -/
def allTargetsReached (counts : List (String × Nat)) (tgts : List (String × Nat)) : Bool :=
  counts.all (fun p => alookupD tgts p.1 0 ≤ p.2)

/-- Lines 567-596: validate one candidate and, if it is valid, in a
needed category and its uniqueness key fresh, append it to the pool. -/
def poolAccept (cryptoData : CryptoData) (countries : List String)
    (tgts : List (String × Nat)) (st : PoolState) (q : Question) : PoolState :=
  match validate_single_question q cryptoData countries with
  | (false, _) => st
  | (true, q2) =>
    match q2.category with
    | none => st
    | some cat =>
      match alookup st.counts cat with
      | none => st
      | some cnt =>
        if cnt < alookupD tgts cat 0 then
          match question_key q2 with
          | none => st
          | some key =>
            if key ∈ st.used then st
            else
              { pool := st.pool ++ [q2], used := key :: st.used,
                counts := abump st.counts cat, attempts := st.attempts }
        else st

/-- Lines 567-607: fold a parsed batch through `poolAccept`, stopping
early once every target is reached (the `break`; counts change only
when a record is appended, so checking after every candidate agrees
with the source's check inside the append branch). -/
def processBatch (cryptoData : CryptoData) (countries : List String)
    (tgts : List (String × Nat)) : PoolState → List Question → PoolState
  | st, [] => st
  | st, q :: qs =>
    let st' := poolAccept cryptoData countries tgts st q
    if allTargetsReached st'.counts tgts then st'
    else processBatch cryptoData countries tgts st' qs

inductive GenEvent where
  | fail
  | parsed (qs : List Question)
deriving Repr

/-- The `while` loop of lines 499-623: guard, one generation event,
attempt counter. -/
def genLoop (cryptoData : CryptoData) (countries : List String)
    (tgts : List (String × Nat)) (poolSize : Nat) :
    List GenEvent → PoolState → PoolState
  | [], st => st
  | ev :: rest, st =>
    if st.pool.length < poolSize ∧ st.attempts < 3000 ∧
        ¬ allTargetsReached st.counts tgts then
      let st' := match ev with
        | .fail => st
        | .parsed qs => processBatch cryptoData countries tgts st qs
      genLoop cryptoData countries tgts poolSize rest
        { st' with attempts := st'.attempts + 1 }
    else st

/-- The state-building part of `generate_questions_pool` (lines 453-625),
before the final call to `select_diverse_questions`.  Context strings
feed only the prompts and are omitted. -/
def generate_questions_pool_state (acledCountries : List String) (cryptoData : CryptoData)
    (numQuestions poolSizeArg : Nat) (requiredCategories : List String)
    (categoryTargets : Option (List (String × Nat))) (trace : List GenEvent) : PoolState :=
  let req := updateRequiredCategories acledCountries requiredCategories
  if req.isEmpty then initPoolState []
  else
    let poolSize := max poolSizeArg (numQuestions * 4)
    let ct := categoryTargets.getD (category_targets_default numQuestions req)
    let pt := pool_targets ct
    genLoop cryptoData acledCountries pt poolSize trace (initPoolState req)

/-! ## Final-selection per-category targets (lines 687-743)

`select_diverse_questions` computes `target_per_category = N // k` and
`extra = N % k`, giving each required category in order
`target_per_category` plus one while `extra > 0` and then decrementing
`extra`.  `selection_targets` records the targets realized when every
required category is present in the pool (the decrement is skipped for
a category with no pool questions). -/

def selection_targets_go (tpc : Nat) : Nat → List String → List (String × Nat)
  | _, [] => []
  | extra, c :: cs =>
    (c, tpc + (if 0 < extra then 1 else 0)) :: selection_targets_go tpc (extra - 1) cs

def selection_targets (n : Nat) (req : List String) : List (String × Nat) :=
  selection_targets_go (n / req.length) (n % req.length) req

/-! ## `calculate_question_diversity` (lines 781-820) -/

/-- Days since the civil epoch (Hinnant's algorithm); `datetime`
subtraction of two midnight datetimes yields exactly this difference in
days.  All intermediate quantities after the era adjustment are
non-negative, so truncating integer division is exact. -/
def daysFromCivil (dte : Date) : Int :=
  let y : Int := if dte.m ≤ 2 then (dte.y : Int) - 1 else (dte.y : Int)
  let era : Int := (if 0 ≤ y then y else y - 399) / 400
  let yoe : Int := y - era * 400
  let mp : Int := ((dte.m : Int) + 9) % 12
  let doy : Int := (153 * mp + 2) / 5 + (dte.d : Int) - 1
  let doe : Int := yoe * 365 + yoe / 4 - yoe / 100 + doy
  era * 146097 + doe - 719468

def isUpperAZ (c : Char) : Bool := 'A' ≤ c && c ≤ 'Z'

def wordRunsGo : CL → CL → List CL
  | [], acc => if acc.isEmpty then [] else [acc.reverse]
  | c :: cs, acc =>
    if isWordChar c then wordRunsGo cs (c :: acc)
    else if acc.isEmpty then wordRunsGo cs []
    else acc.reverse :: wordRunsGo cs []

/-- Maximal runs of word characters of a text. -/
def wordRuns (cs : CL) : List CL := wordRunsGo cs []

/-- `set(re.findall(r'\b[A-Z]{2,}\b', s))`: complete words of two or more
capital letters, deduplicated.  Python's set iteration order is
unspecified; first-occurrence order is used wherever the source iterates
the set (it only ever takes one 3-letter element or tests disjointness,
for which the order is immaterial up to that arbitrary choice). -/
def upperTokens (s : String) : List String :=
  (((wordRuns s.toList).filter
      (fun r => 2 ≤ r.length && r.all isUpperAZ)).map (fun r => (⟨r⟩ : String))).eraseDups

/-- `calculate_question_diversity(q1, q2)`; `none` models the `KeyError`
of a missing field (date and value conversion failures are caught by the
source and simply contribute no score). -/
def calculate_question_diversity (q1 q2 : Question) : Option Nat :=
  match q1.metric, q2.metric, q1.timeframe, q2.timeframe, q1.target_value, q2.target_value,
        q1.question, q2.question, q1.category, q2.category with
  | some m1, some m2, some t1, some t2, some tv1, some tv2,
    some qt1, some qt2, some c1, some c2 =>
    let s1 : Nat := if m1 ≠ m2 then 1 else 0
    let s2 : Nat :=
      match strptimeYMD t1, strptimeYMD t2 with
      | some d1, some d2 =>
        if 30 < (daysFromCivil d1 - daysFromCivil d2).natAbs then 1 else 0
      | _, _ => 0
    let s3 : Nat :=
      match pyFloatVal tv1, pyFloatVal tv2 with
      | some v1, some v2 =>
        let mx := qMax v1 v2
        if mx = 0 then 0
        else if qPoint2 < qDiv (qAbs (qSub v1 v2)) mx then 1 else 0
      | _, _ => 0
    let e1 := upperTokens qt1
    let e2 := upperTokens qt2
    let s4 : Nat := if e1.all (fun t => t ∉ e2) then 1 else 0
    let s5 : Nat :=
      if c1 = "social_events" ∧ c2 = "social_events" then
        let co1 := ((e1.find? (fun t => t.length = 3)).getD "")
        let co2 := ((e2.find? (fun t => t.length = 3)).getD "")
        if co1 ≠ co2 then 2 else 0
      else 0
    some (s1 + s2 + s3 + s4 + s5)
  | _, _, _, _, _, _, _, _, _, _ => none

/-! ## `select_diverse_category_questions` (lines 634-673) -/

instance : Inhabited Question := ⟨⟨none, none, none, none, none, none⟩⟩

def buildDiversityMatrix (qs : List Question) : Option (List (List Nat)) :=
  qs.mapM (fun q1 => qs.mapM (fun q2 => calculate_question_diversity q1 q2))

/-- Minimum of `matrix[i][j]` over the selected indices `sel`
(`float('inf')` start; `sel` is never empty when consulted). -/
def minDistTo (matrix : List (List Nat)) (sel : List Nat) (i : Nat) : Option Nat :=
  (sel.map (fun j => ((matrix.getD i []).getD j 0))).min?

/-- One pass of lines 654-667: the first unchosen index whose minimum
distance to the selected set is strictly maximal (`-1` start, so the
first unchosen index always becomes an initial candidate). -/
def pickBest (matrix : List (List Nat)) (n : Nat) (sel : List Nat) : Option Nat :=
  ((List.range n).foldl
    (fun acc i =>
      if i ∈ sel then acc
      else
        match minDistTo matrix sel i with
        | none => acc
        | some md =>
          match acc with
          | none => some (md, i)
          | some b => if b.1 < md then some (md, i) else acc)
    none).map (·.2)

def greedyGo (matrix : List (List Nat)) (n count : Nat) : Nat → List Nat → List Nat
  | 0, sel => sel
  | fuel + 1, sel =>
    if sel.length < count ∧ sel.length < n then
      match pickBest matrix n sel with
      | some i => greedyGo matrix n count fuel (sel ++ [i])
      | none => sel
    else sel

/-- `select_diverse_category_questions(questions, count)`.  Under the
loop guard an unchosen index always exists, so `pickBest` always
succeeds and `length questions` fuel is exact; `none` models an
exception escaping the diversity-matrix construction. -/
def select_diverse_category_questions (questions : List Question) (count : Nat) :
    Option (List Question) :=
  if questions.isEmpty then some []
  else
    match buildDiversityMatrix questions with
    | none => none
    | some matrix =>
      let idxs := greedyGo matrix questions.length count questions.length [0]
      some (idxs.map (fun i => questions.getD i default))

/-! ## `select_diverse_questions` (lines 675-779) -/

/-- The extended uniqueness key of the selection stage (lines 704-711):
`(category, metric, timeframe, str(float(target_value)), question.lower())`;
`none` models the uncaught `KeyError`/`ValueError` of a missing field or
unparseable target value. -/
def sel_question_key (q : Question) :
    Option (String × String × String × String × String) :=
  match q.category, q.metric, q.timeframe, q.target_value, q.question with
  | some c, some m, some t, some tv, some qt =>
    (pyFloatVal tv).map (fun v => (c, m, t, floatStr v, strLower qt))
  | _, _, _, _, _ => none

abbrev SelKey := String × String × String × String × String

/-- `questions_by_category`: partition of the pool in first-appearance
key order; `none` models the `KeyError` on a record without a category. -/
def buildByCategory (pool : List Question) :
    Option (List (String × List Question)) :=
  pool.foldlM
    (fun acc q =>
      match q.category with
      | none => none
      | some c =>
        some (if (acc.find? (fun p => p.1 = c)).isSome then
                acc.map (fun p => if p.1 = c then (p.1, p.2 ++ [q]) else p)
              else acc ++ [(c, [q])]))
    []

/-- Lines 702-732: filter one category's questions, dropping duplicate
extended keys, records with unparseable target values, and the ad hoc
per-symbol caps; accepted records have their key added to the used set. -/
def filterCat (category : String) : List Question → List Question → List SelKey →
    Option (List Question × List SelKey)
  | [], filtered, used => some (filtered, used)
  | q :: rest, filtered, used =>
    match sel_question_key q with
    | none => none
    | some key =>
      if key ∈ used then filterCat category rest filtered used
      else
        match q.target_value, q.question with
        | some tv, some qt =>
          match pyFloatVal tv with
          | none => filterCat category rest filtered used
          | some v =>
            let skip : Bool :=
              if category = "cryptocurrency" then
                (strIn "ATOM" qt && decide (20 < v)) ||
                (strIn "BTC" qt && decide (200000 < v)) ||
                (strIn "DOT" qt && decide (20 < v))
              else if category = "social_events" then
                !(decide ((50 : ℚ) ≤ v ∧ v ≤ 500))
              else false
            if skip then filterCat category rest filtered used
            else filterCat category rest (filtered ++ [q]) (key :: used)
        | _, _ => none

/-- Lines 694-743: the first selection phase over the required
categories. -/
def selPhase1 (qbc : List (String × List Question)) (tpc : Nat) :
    List String → List Question → List SelKey → Nat →
    Option (List Question × List SelKey)
  | [], sel, used, _ => some (sel, used)
  | c :: cs, sel, used, extra =>
    match alookup qbc c with
    | none => selPhase1 qbc tpc cs sel used extra
    | some qs =>
      match filterCat c qs [] used with
      | none => none
      | some (filtered, used') =>
        let targetCount := tpc + (if 0 < extra then 1 else 0)
        match select_diverse_category_questions filtered targetCount with
        | none => none
        | some dq => selPhase1 qbc tpc cs (sel ++ dq) used' (extra - 1)

/-- The list comprehension of lines 754-758 (`and` short-circuits: the
key of a record already in `selected` is never computed). -/
def remainingOf (sel : List Question) (used : List SelKey) :
    List Question → Option (List Question)
  | [] => some []
  | q :: rest =>
    if q ∈ sel then remainingOf sel used rest
    else
      match sel_question_key q with
      | none => none
      | some k =>
        match remainingOf sel used rest with
        | none => none
        | some r => some (if k ∈ used then r else q :: r)

/-- One traversal of the required categories inside the backfill `while`
loop (lines 747-769). -/
def backfillPass (qbc : List (String × List Question)) (n : Nat) :
    List String → List Question → List SelKey →
    Option (List Question × List SelKey)
  | [], sel, used => some (sel, used)
  | c :: cs, sel, used =>
    if n ≤ sel.length then some (sel, used)
    else
      match alookup qbc c with
      | none => backfillPass qbc n cs sel used
      | some qs =>
        match remainingOf sel used qs with
        | none => none
        | some [] => backfillPass qbc n cs sel used
        | some (q :: _) =>
          match sel_question_key q with
          | none => none
          | some key => backfillPass qbc n cs (sel ++ [q]) (key :: used)

/-- The result of running a piece of Python code: it may diverge, raise,
or return. -/
inductive RunRes (α : Type) where
  | div
  | exn
  | ok (a : α)
deriving DecidableEq, Repr

/-- The backfill `while len(selected) < num_questions` loop of lines
746-769, one unit of fuel per pass; `div` records that the fuel ran out
with the guard still true. -/
def backfillLoop (qbc : List (String × List Question)) (req : List String) (n : Nat) :
    Nat → List Question → List SelKey → RunRes (List Question)
  | 0, _, _ => .div
  | fuel + 1, sel, used =>
    if sel.length < n then
      match backfillPass qbc n req sel used with
      | none => .exn
      | some (sel', used') => backfillLoop qbc req n fuel sel' used'
    else .ok sel

/-- `select_diverse_questions(pool, num_questions, required_categories)`
(lines 675-779).  `div` for every fuel value means the backfill loop
never terminates. -/
def select_diverse_questions (fuel : Nat) (pool : List Question) (numQuestions : Nat)
    (requiredCategories : List String) : RunRes (List Question) :=
  match buildByCategory pool with
  | none => .exn
  | some qbc =>
    if requiredCategories.length = 0 then .exn
    else
      let tpc := numQuestions / requiredCategories.length
      let extra := numQuestions % requiredCategories.length
      match selPhase1 qbc tpc requiredCategories [] [] extra with
      | none => .exn
      | some (sel, used) =>
        match backfillLoop qbc requiredCategories numQuestions fuel sel used with
        | .div => .div
        | .exn => .exn
        | .ok sel' => .ok (sel'.take numQuestions)

/-! ## Concrete instances used by the theorems -/

/-- Crypto data with BTC priced 90000 (Scenario A). -/
def btc90 : CryptoData := [("BTC", ⟨"Bitcoin", 90000⟩)]

/-- Crypto data with BTC priced 40000 (Scenario B). -/
def btc40 : CryptoData := [("BTC", ⟨"Bitcoin", 40000⟩)]

/-- The Scenario A/B record. -/
def recA : Question :=
  { question := some "Will Bitcoin price exceed 100000 by 2025/03/31?"
    timeframe := some "2025/03/31"
    category := some "cryptocurrency"
    metric := some "price_target"
    target_value := some (PyVal.s "$100,000")
    measurement_source := some (PyVal.s "CoinMarketCap") }

/-- Scenario A's question text after entity normalization. -/
def qtA : String := "Will Bitcoin (BTC) exceed 100000 by 2025/03/31?"

/-- The Scenario A record as returned (mutated) on acceptance. -/
def recA' : Question :=
  { recA with question := some qtA, target_value := some (PyVal.f 100000) }

/-- A cryptocurrency record whose question names no symbol or asset of
`btc90`. -/
def recDoge : Question :=
  { question := some "Will Dogecoin price exceed 1 by 2025/03/31?"
    timeframe := some "2025/03/31"
    category := some "cryptocurrency"
    metric := some "price_target"
    target_value := some (PyVal.i 1)
    measurement_source := some (PyVal.s "CoinMarketCap") }

/-- A record that is rejected (timeframe past 2025-06-30) but mutated
before rejection: its question text names Apple. -/
def recC9 : Question :=
  { question := some "Will Apple stock price exceed 500 by 2025/07/01?"
    timeframe := some "2025/07/01"
    category := some "financial_market"
    metric := some "price_target"
    target_value := some (PyVal.i 500)
    measurement_source := none }

/-- The uniqueness key of the accepted Scenario A record. -/
def keyA : String × String × String × String :=
  ("cryptocurrency", "price_target", "2025/03/31", floatStr 100000)

def tgts0 : List (String × Nat) := [("cryptocurrency", 4)]

/-- A pool state that already holds `keyA` in its used-key set. -/
def st0 : PoolState := ⟨[], [keyA], [("cryptocurrency", 0)], 0⟩

/-- A one-iteration generation trace producing the Scenario A record. -/
def trace1 : List GenEvent := [GenEvent.parsed [recA]]

/-! ## `json.loads`

A strict JSON parser modelling Python's `json.loads`: leading and
trailing whitespace allowed, the whole string must be consumed, raw
control characters inside strings rejected, and the CPython extensions
`NaN`/`Infinity`/`-Infinity` accepted.  `\uXXXX` escapes are decoded
codepoint-by-codepoint without combining surrogate pairs — acceptance
is identical, only the decoded character of an astral pair differs, and
no theorem depends on it. -/

inductive JVal where
  | obj (fields : List (String × JVal))
  | arr (elems : List JVal)
  | str (s : String)
  | num (q : ℚ)
  | bool (b : Bool)
  | null
  | nan
  | inf
  | ninf

/-- Is the value a JSON array (a Python list)? -/
def JVal.isArr : JVal → Bool
  | .arr _ => true
  | _ => false

def isJsonWs (c : Char) : Bool := c = ' ' || c = '\t' || c = '\n' || c = '\r'

def jskipWs (cs : CL) : CL := cs.dropWhile isJsonWs

def hexDigitVal (c : Char) : Option Nat :=
  if '0' ≤ c ∧ c ≤ '9' then some (digitVal c)
  else if 'a' ≤ c ∧ c ≤ 'f' then some (c.toNat - 'a'.toNat + 10)
  else if 'A' ≤ c ∧ c ≤ 'F' then some (c.toNat - 'A'.toNat + 10)
  else none

/-- JSON string body (after the opening quote). -/
def jstr : CL → CL → Option (String × CL)
  | _, [] => none
  | acc, '"' :: rest => some (⟨acc.reverse⟩, rest)
  | acc, '\\' :: e :: rest =>
    if e = '"' then jstr ('"' :: acc) rest
    else if e = '\\' then jstr ('\\' :: acc) rest
    else if e = '/' then jstr ('/' :: acc) rest
    else if e = 'b' then jstr (Char.ofNat 8 :: acc) rest
    else if e = 'f' then jstr (Char.ofNat 12 :: acc) rest
    else if e = 'n' then jstr ('\n' :: acc) rest
    else if e = 'r' then jstr ('\r' :: acc) rest
    else if e = 't' then jstr ('\t' :: acc) rest
    else if e = 'u' then
      match rest with
      | h1 :: h2 :: h3 :: h4 :: rest2 =>
        match hexDigitVal h1, hexDigitVal h2, hexDigitVal h3, hexDigitVal h4 with
        | some a, some b, some c, some d =>
          jstr (Char.ofNat (((a * 16 + b) * 16 + c) * 16 + d) :: acc) rest2
        | _, _, _, _ => none
      | _ => none
    else none
  | acc, c :: rest => if c.toNat < 32 then none else jstr (c :: acc) rest

/-- JSON number after an optional leading minus, following the grammar
`(0|[1-9]\d*)(\.\d+)?([eE][-+]?\d+)?`; a malformed fractional part or
exponent is left unconsumed exactly as CPython's `NUMBER_RE` leaves it. -/
def jnumBody (cs : CL) : Option (ℚ × CL) :=
  match cs with
  | [] => none
  | c :: rest =>
    if ¬ c.isDigit then none
    else
      let ip : CL := if c = '0' then [c] else (c :: rest).takeWhile Char.isDigit
      let r1 : CL := if c = '0' then rest else (c :: rest).dropWhile Char.isDigit
      let fpr : CL × CL :=
        match r1 with
        | '.' :: r2 =>
          let fp := r2.takeWhile Char.isDigit
          if fp.isEmpty then ([], r1) else (fp, r2.dropWhile Char.isDigit)
        | _ => ([], r1)
      let fp := fpr.1
      let r3 := fpr.2
      let er : Option Int × CL :=
        match r3 with
        | e :: r4 =>
          if e = 'e' ∨ e = 'E' then
            match r4 with
            | '+' :: r5 =>
              let ds := r5.takeWhile Char.isDigit
              if ds.isEmpty then (none, r3)
              else (some (digitsVal ds : Int), r5.dropWhile Char.isDigit)
            | '-' :: r5 =>
              let ds := r5.takeWhile Char.isDigit
              if ds.isEmpty then (none, r3)
              else (some (-(digitsVal ds : Int)), r5.dropWhile Char.isDigit)
            | r5 =>
              let ds := r5.takeWhile Char.isDigit
              if ds.isEmpty then (none, r3)
              else (some (digitsVal ds : Int), r5.dropWhile Char.isDigit)
          else (none, r3)
        | [] => (none, r3)
      some (decToRat ip fp (er.1.getD 0), er.2)

def jnum : CL → Option (ℚ × CL)
  | '-' :: rest => (jnumBody rest).map (fun p => (qNeg p.1, p.2))
  | cs => jnumBody cs

mutual

def jvalue : Nat → CL → Option (JVal × CL)
  | 0, _ => none
  | fuel + 1, cs =>
    match cs with
    | [] => none
    | '{' :: rest =>
      match jskipWs rest with
      | '}' :: r2 => some (.obj [], r2)
      | r2 => jmembers fuel r2 []
    | '[' :: rest =>
      match jskipWs rest with
      | ']' :: r2 => some (.arr [], r2)
      | r2 => jelems fuel r2 []
    | '"' :: rest => (jstr [] rest).map (fun p => (.str p.1, p.2))
    | 't' :: rest => (dropPre "rue".toList rest).map (fun r => (.bool true, r))
    | 'f' :: rest => (dropPre "alse".toList rest).map (fun r => (.bool false, r))
    | 'n' :: rest => (dropPre "ull".toList rest).map (fun r => (.null, r))
    | 'N' :: rest => (dropPre "aN".toList rest).map (fun r => (.nan, r))
    | 'I' :: rest => (dropPre "nfinity".toList rest).map (fun r => (.inf, r))
    | '-' :: 'I' :: rest => (dropPre "nfinity".toList rest).map (fun r => (.ninf, r))
    | c :: _ =>
      if c.isDigit ∨ c = '-' then (jnum cs).map (fun p => (.num p.1, p.2))
      else none

def jelems : Nat → CL → List JVal → Option (JVal × CL)
  | 0, _, _ => none
  | fuel + 1, cs, acc =>
    match jvalue fuel (jskipWs cs) with
    | none => none
    | some (v, r) =>
      match jskipWs r with
      | ',' :: r2 => jelems fuel r2 (v :: acc)
      | ']' :: r2 => some (.arr (v :: acc).reverse, r2)
      | _ => none

def jmembers : Nat → CL → List (String × JVal) → Option (JVal × CL)
  | 0, _, _ => none
  | fuel + 1, cs, acc =>
    match jskipWs cs with
    | '"' :: r =>
      match jstr [] r with
      | none => none
      | some (k, r2) =>
        match jskipWs r2 with
        | ':' :: r3 =>
          match jvalue fuel (jskipWs r3) with
          | none => none
          | some (v, r4) =>
            match jskipWs r4 with
            | ',' :: r5 => jmembers fuel r5 ((k, v) :: acc)
            | '}' :: r5 => some (.obj ((k, v) :: acc).reverse, r5)
            | _ => none
        | _ => none
    | _ => none

end

/-- Python `json.loads` (`none` models `json.JSONDecodeError`). -/
def json_loads (s : String) : Option JVal :=
  let cs := s.toList
  match jvalue (cs.length + 2) (jskipWs cs) with
  | none => none
  | some (v, r) => if jskipWs r = [] then some v else none

/-! ## `clean_json_content` (lines 822-954)

Every `re.sub` of the source is hand-translated into a scanner for its
specific pattern.  All the patterns are deterministic in the sense that
greedy matching with the noted local backtracking rules coincides with
the regex engine's behavior; each scanner documents its pattern. -/

def replaceCL (cs pat rep : CL) : CL := replaceAllCL pat rep cs.length cs

def subAll (m : CL → Option (CL × CL)) (cs : CL) : CL := subScan m (cs.length + 1) cs

/-- `re.search`: try the matcher at every position, left to right. -/
def searchScan {α : Type} (m : CL → Option α) : CL → Option α
  | [] => m []
  | c :: cs =>
    match m (c :: cs) with
    | some a => some a
    | none => searchScan m cs

/-- Generic piece: consume a literal, then `\s*`. -/
def afterLitWs (lit cs : CL) : Option CL :=
  (dropPre lit cs).map (fun r => r.dropWhile isPyWs)

/-- Generic piece: `"[^"]*"` — a quoted value; returns (value, rest). -/
def readQuoted : CL → Option (CL × CL)
  | '"' :: r =>
    let v := r.takeWhile (fun c => c ≠ '"')
    match r.dropWhile (fun c => c ≠ '"') with
    | '"' :: r2 => some (v, r2)
    | _ => none
  | _ => none

/-- Generic piece: `\d+` — a maximal nonempty digit run. -/
def readDigits1 (cs : CL) : Option (CL × CL) :=
  let d := cs.takeWhile Char.isDigit
  if d.isEmpty then none else some (d, cs.dropWhile Char.isDigit)

/-- `",\s*"` → `", "` (line 839). -/
def mCommaQuote : CL → Option (CL × CL)
  | '"' :: ',' :: rest =>
    match rest.dropWhile isPyWs with
    | '"' :: r2 => some ("\", \"".toList, r2)
    | _ => none
  | _ => none

/-- `":\s*"` → `": "` (line 840). -/
def mColonQuote : CL → Option (CL × CL)
  | '"' :: ':' :: rest =>
    match rest.dropWhile isPyWs with
    | '"' :: r2 => some ("\": \"".toList, r2)
    | _ => none
  | _ => none

/-- `(\d+)/\d+/\d+(?=")` → `\1` (line 852); the lookahead quote stays
unconsumed. -/
def mDateCollapse (cs : CL) : Option (CL × CL) :=
  match readDigits1 cs with
  | some (d1, '/' :: r2) =>
    match readDigits1 r2 with
    | some (_, '/' :: r4) =>
      match readDigits1 r4 with
      | some (_, r5) =>
        match r5 with
        | '"' :: _ => some (d1, r5)
        | _ => none
      | none => none
    | _ => none
  | _ => none

/-- `(\d+)X\b` with replacement `str(int(g1) * mult)` (lines 853-856,
for `X` in `k`/`m`/`b`/`t`). -/
def mNumSuffix (suf : Char) (mult : Nat) (cs : CL) : Option (CL × CL) :=
  match readDigits1 cs with
  | some (ds, c :: rest) =>
    if c = suf && (match rest with
                   | [] => true
                   | c2 :: _ => ¬ isWordChar c2) then
      some ((toString (digitsVal ds * mult)).toList, rest)
    else none
  | _ => none

/-- `"target_value":\s*"[\$,]*(\d+\.?\d*)"` → `"target_value": \1`
(line 861). -/
def mTargetQuoted (cs : CL) : Option (CL × CL) :=
  match afterLitWs "\"target_value\":".toList cs with
  | some ('"' :: r1) =>
    let r2 := r1.dropWhile (fun c => c = '$' ∨ c = ',')
    match readDigits1 r2 with
    | some (d1, r3) =>
      let fr : CL × CL :=
        match r3 with
        | '.' :: r4 => ('.' :: r4.takeWhile Char.isDigit, r4.dropWhile Char.isDigit)
        | _ => ([], r3)
      match fr.2 with
      | '"' :: r5 => some ("\"target_value\": ".toList ++ d1 ++ fr.1, r5)
      | _ => none
    | none => none
  | _ => none

/-- The search `"target_value":\s*\[\s*(\d+\.?\d*)[^\]]*\]` (line 865):
yields the captured number text. -/
def mTargetRangeSearch (cs : CL) : Option CL :=
  match afterLitWs "\"target_value\":".toList cs with
  | some ('[' :: r1) =>
    let r2 := r1.dropWhile isPyWs
    match readDigits1 r2 with
    | some (d1, r3) =>
      let fr : CL × CL :=
        match r3 with
        | '.' :: r4 => ('.' :: r4.takeWhile Char.isDigit, r4.dropWhile Char.isDigit)
        | _ => ([], r3)
      match fr.2.dropWhile (fun c => c ≠ ']') with
      | ']' :: _ => some (d1 ++ fr.1)
      | _ => none
    | none => none
  | _ => none

/-- `"target_value":\s*\[[^\]]*\]` → `"target_value": {g1}` (line 867). -/
def mTargetRangeSub (g1 : CL) (cs : CL) : Option (CL × CL) :=
  match afterLitWs "\"target_value\":".toList cs with
  | some ('[' :: r1) =>
    match r1.dropWhile (fun c => c ≠ ']') with
    | ']' :: r2 => some ("\"target_value\": ".toList ++ g1, r2)
    | _ => none
  | _ => none

/-- The search `by (\d{4}/\d{2}/\d{2})` (line 872). -/
def mByDate (cs : CL) : Option CL :=
  match dropPre "by ".toList cs with
  | some (a :: b :: c :: d :: '/' :: e :: f :: '/' :: g :: h :: _) =>
    if [a, b, c, d, e, f, g, h].all Char.isDigit then
      some [a, b, c, d, '/', e, f, '/', g, h]
    else none
  | _ => none

/-- `"timeframe":\s*"[^"]*"` → `"timeframe": "{d}"` (line 875). -/
def mTimeframeAny (d : CL) (cs : CL) : Option (CL × CL) :=
  match afterLitWs "\"timeframe\":".toList cs with
  | some r0 =>
    match readQuoted r0 with
    | some (_, r2) => some ("\"timeframe\": \"".toList ++ d ++ ['"'], r2)
    | none => none
  | none => none

/-- `"timeframe":\s*"[^"]*to[^"]*"` → `"timeframe": "2025/04/01"`
(line 879). -/
def mTimeframeTo (cs : CL) : Option (CL × CL) :=
  match afterLitWs "\"timeframe\":".toList cs with
  | some r0 =>
    match readQuoted r0 with
    | some (v, r2) =>
      if isSubstrCL "to".toList v then
        some ("\"timeframe\": \"2025/04/01\"".toList, r2)
      else none
    | none => none
  | none => none

/-- Does `[^"]*by ([^"]+)\s*\d{4}` match a whole quoted value?  With the
greedy classes this reduces to: the value ends in four digits, and
`by ` occurs early enough to leave at least one character before
them. -/
def timeframeByCond (v : CL) : Bool :=
  decide (8 ≤ v.length) && (v.drop (v.length - 4)).all Char.isDigit &&
    isSubstrCL "by ".toList (v.take (v.length - 5))

/-- `"timeframe":\s*"[^"]*by ([^"]+)\s*\d{4}"` →
`"timeframe": "2025/04/01"` (line 880; the replacement is literal). -/
def mTimeframeBy (cs : CL) : Option (CL × CL) :=
  match afterLitWs "\"timeframe\":".toList cs with
  | some r0 =>
    match readQuoted r0 with
    | some (v, r2) =>
      if timeframeByCond v then
        some ("\"timeframe\": \"2025/04/01\"".toList, r2)
      else none
    | none => none
  | none => none

/-- Shape `\d{4}/\d{2}/\d{2}` of a whole value. -/
def isYMDShape : CL → Bool
  | [a, b, c, d, s1, e, f, s2, g, h] =>
    [a, b, c, d, e, f, g, h].all Char.isDigit && s1 = '/' && s2 = '/'
  | _ => false

/-- `"timeframe":\s*"(\d{4})/(\d{2})/(\d{2})"` → `"timeframe": "\1/\2/\3"`
(line 881; identity except for whitespace normalization). -/
def mTimeframeYMD (cs : CL) : Option (CL × CL) :=
  match afterLitWs "\"timeframe\":".toList cs with
  | some r0 =>
    match readQuoted r0 with
    | some (v, r2) =>
      if isYMDShape v then
        some ("\"timeframe\": \"".toList ++ v ++ ['"'], r2)
      else none
    | none => none
  | none => none

/-- `"timeframe":\s*"(\d{4})"` → `"timeframe": "\1/04/01"` (line 882). -/
def mTimeframeY (cs : CL) : Option (CL × CL) :=
  match afterLitWs "\"timeframe\":".toList cs with
  | some r0 =>
    match readQuoted r0 with
    | some (v, r2) =>
      if v.length = 4 ∧ v.all Char.isDigit then
        some ("\"timeframe\": \"".toList ++ v ++ "/04/01\"".toList, r2)
      else none
    | none => none
  | none => none

/-- `"timeframe":\s*"(\d{4})/(\d{2})"` → `"timeframe": "\1/\2/01"`
(line 883). -/
def mTimeframeYM (cs : CL) : Option (CL × CL) :=
  match afterLitWs "\"timeframe\":".toList cs with
  | some r0 =>
    match readQuoted r0 with
    | some (v, r2) =>
      match v with
      | [a, b, c, d, s1, e, f] =>
        if [a, b, c, d, e, f].all Char.isDigit ∧ s1 = '/' then
          some ("\"timeframe\": \"".toList ++ v ++ "/01\"".toList, r2)
        else none
      | _ => none
    | none => none
  | none => none

/-- `(\d{4})(\d{2})(\d{2})` → `\1/\2/\3` (line 884): eight consecutive
digits get slashed. -/
def mDigits8 : CL → Option (CL × CL)
  | a :: b :: c :: d :: e :: f :: g :: h :: rest =>
    if [a, b, c, d, e, f, g, h].all Char.isDigit then
      some ([a, b, c, d, '/', e, f, '/', g, h], rest)
    else none
  | _ => none

/-- `"metric":\s*"LIT"` → `"metric": "REP"` (lines 888-890). -/
def mMetricExact (litv rep : String) (cs : CL) : Option (CL × CL) :=
  match afterLitWs "\"metric\":".toList cs with
  | some r0 =>
    match dropPre ('"' :: litv.toList ++ ['"']) r0 with
    | some r1 => some (("\"metric\": \"" ++ rep ++ "\"").toList, r1)
    | none => none
  | none => none

/-- `"metric":\s*"[^"]*KEY[^"]*"` → `"metric": "REP"` (lines 894-903). -/
def mMetricKey (key rep : String) (cs : CL) : Option (CL × CL) :=
  match afterLitWs "\"metric\":".toList cs with
  | some r0 =>
    match readQuoted r0 with
    | some (v, r2) =>
      if isSubstrCL key.toList v then
        some (("\"metric\": \"" ++ rep ++ "\"").toList, r2)
      else none
    | none => none
  | none => none

/-- Positions where `pat` occurs in `cs`. -/
def subPositions (pat cs : CL) : List Nat :=
  (List.range (cs.length + 1)).filter (fun i => startsWithCL (cs.drop i) pat)

def treasuryGoodSuffix (suf : CL) : Bool :=
  (subPositions " by ".toList suf).any (fun k => decide (1 ≤ k) && decide (k + 4 < suf.length))

/-- `Will the [^"]+ Treasury [^"]+ by ([^"]+)` →
`Will Treasury rate reach \1` (line 895).  All classes exclude quotes,
so a match lives in the quote-free span after `Will the `; greedy
matching puts ` Treasury ` and ` by ` at their last feasible positions
and extends the captured group to the span's end. -/
def mWillTreasury (cs : CL) : Option (CL × CL) :=
  match dropPre "Will the ".toList cs with
  | none => none
  | some r0 =>
    let span := r0.takeWhile (fun c => c ≠ '"')
    let rest := r0.drop span.length
    let treas := " Treasury ".toList
    let cands := (subPositions treas span).filter (fun p =>
      decide (1 ≤ p) && treasuryGoodSuffix (span.drop (p + treas.length)))
    match cands.getLast? with
    | none => none
    | some p =>
      let suf := span.drop (p + treas.length)
      let bys := (subPositions " by ".toList suf).filter (fun k =>
        decide (1 ≤ k) && decide (k + 4 < suf.length))
      match bys.getLast? with
      | none => none
      | some k =>
        some ("Will Treasury rate reach ".toList ++ suf.drop (k + 4), rest)

/-- `"measurement_source":\s*"[^"]*"` → `"measurement_source": "SRC"`
(lines 907-919). -/
def mMeasurementAny (src : String) (cs : CL) : Option (CL × CL) :=
  match afterLitWs "\"measurement_source\":".toList cs with
  | some r0 =>
    match readQuoted r0 with
    | some (_, r2) =>
      some (("\"measurement_source\": \"" ++ src ++ "\"").toList, r2)
    | none => none
  | none => none

def quoteFixSpecial (c : Char) : Bool :=
  c = '"' || c = ',' || c = '{' || c = '}' || c = '[' || c = ']'

/-- `:\s*([^",\{\}\[\]\s][^",\{\}\[\]]*[^",\{\}\[\]\s])\s*([,}])` →
`: "\1"\2` (line 924): after a colon, a run of at least two
non-special characters starting and ending without whitespace,
followed by `,` or `}`, gets quoted. -/
def mQuoteFix : CL → Option (CL × CL)
  | ':' :: r0 =>
    let r1 := r0.dropWhile isPyWs
    match r1 with
    | c1 :: r2 =>
      if quoteFixSpecial c1 || isPyWs c1 then none
      else
        let run := (c1 :: r2).takeWhile (fun c => ¬ quoteFixSpecial c)
        let after := (c1 :: r2).dropWhile (fun c => ¬ quoteFixSpecial c)
        let grp := (run.reverse.dropWhile isPyWs).reverse
        match after with
        | sep :: r3 =>
          if (sep = ',' ∨ sep = '}') ∧ 2 ≤ grp.length then
            some (": \"".toList ++ grp ++ ['"', sep], r3)
          else none
        | [] => none
    | [] => none
  | _ => none

/-- `,\s*}` → `}` (line 933). -/
def mCommaBrace : CL → Option (CL × CL)
  | ',' :: r =>
    match r.dropWhile isPyWs with
    | '}' :: r2 => some (['}'], r2)
    | _ => none
  | _ => none

/-- `\s+` → ` ` (line 934). -/
def mWsCollapse : CL → Option (CL × CL)
  | c :: r =>
    if isPyWs c then some ([' '], (c :: r).dropWhile isPyWs) else none
  | [] => none

/-- Aggressive cleanup `([^"]),\s*([^"\d{[])` → `\1, "\2` (line 945). -/
def mAgg1 : CL → Option (CL × CL)
  | c1 :: ',' :: r =>
    if c1 = '"' then none
    else
      match r.dropWhile isPyWs with
      | c2 :: r2 =>
        if c2 = '"' ∨ c2.isDigit ∨ c2 = '{' ∨ c2 = '[' then none
        else some ([c1, ',', ' ', '"', c2], r2)
      | [] => none
  | _ => none

/-- Aggressive cleanup `([^"}]),\s*}` → `\1}` (line 946). -/
def mAgg2 : CL → Option (CL × CL)
  | c1 :: ',' :: r =>
    if c1 = '"' ∨ c1 = '}' then none
    else
      match r.dropWhile isPyWs with
      | '}' :: r2 => some ([c1, '}'], r2)
      | _ => none
  | _ => none

/-- Trailing-strip of one character, as Python `rstrip('}')`. -/
def rstripCh (t : Char) : CL → CL
  | [] => []
  | c :: cs =>
    match rstripCh t cs with
    | [] => if c = t then [] else [c]
    | r => c :: r

/-- Lines 834-856: the unconditional replaces and numeric fixups. -/
def cleanStageA (c : CL) : CL :=
  let c1 := replaceCL c "\n".toList " ".toList
  let c2 := replaceCL c1 "\\\"".toList "\"".toList
  let c3 := replaceCL c2 "\\\\".toList "\\".toList
  let c4 := subAll mCommaQuote c3
  let c5 := subAll mColonQuote c4
  let c6 := replaceCL c5 "$".toList []
  let c7 := replaceCL c6 "[increase/decrease]".toList "increase".toList
  let c8 := replaceCL c7 "YoY".toList []
  let c9 := replaceCL c8 "%".toList []
  let c10 := replaceCL c9 "Trillion".toList "000000000000".toList
  let c11 := replaceCL c10 "Billion".toList "000000000".toList
  let c12 := replaceCL c11 "Million".toList "000000".toList
  let c13 := subAll mDateCollapse c12
  let c14 := subAll (mNumSuffix 'k' 1000) c13
  let c15 := subAll (mNumSuffix 'm' 1000000) c14
  let c16 := subAll (mNumSuffix 'b' 1000000000) c15
  subAll (mNumSuffix 't' 1000000000000) c16

/-- Lines 859-867: the `target_value` fixups. -/
def cleanStageTarget (c : CL) : CL :=
  if isSubstrCL "\"target_value\":".toList c then
    let a := subAll mTargetQuoted c
    if isSubstrCL "[".toList a then
      match searchScan mTargetRangeSearch a with
      | some g1 => subAll (mTargetRangeSub g1) a
      | none => a
    else a
  else c

/-- Lines 870-884: the `timeframe` fixups. -/
def cleanStageTimeframe (c : CL) : CL :=
  if isSubstrCL "timeframe".toList c then
    match searchScan mByDate c with
    | some d => subAll (mTimeframeAny d) c
    | none =>
      let a := replaceCL c "YYYY/MM/DD".toList "2025/04/01".toList
      let b := subAll mTimeframeTo a
      let c1 := subAll mTimeframeBy b
      let c2 := subAll mTimeframeYMD c1
      let c3 := subAll mTimeframeY c2
      let c4 := subAll mTimeframeYM c3
      subAll mDigits8 c4
  else c

/-- Lines 887-903: the metric fixups. -/
def cleanStageMetric (c : CL) : CL :=
  let a :=
    if isSubstrCL "\"category\": \"financial_market\"".toList c then
      let a1 := subAll (mMetricExact "24h_change" "price_target") c
      let a2 := subAll (mMetricExact "volume_24h" "volume_target") a1
      subAll (mMetricExact "market_cap_24h" "market_cap_target") a2
    else c
  if isSubstrCL "\"category\": \"economic_indicator\"".toList a then
    let b :=
      if isSubstrCL "Treasury".toList a then
        subAll mWillTreasury (subAll (mMetricKey "Treasury" "treasury_rate") a)
      else a
    let b1 := subAll (mMetricKey "Consumer Price Index" "cpi") b
    let b2 := subAll (mMetricKey "Industrial Production" "industrial_production") b1
    let b3 := subAll (mMetricKey "GDP" "gdp") b2
    let b4 := subAll (mMetricKey "Unemployment" "unemployment_rate") b3
    let b5 := subAll (mMetricKey "Inflation" "inflation_rate") b4
    let b6 := subAll (mMetricKey "yield" "treasury_rate") b5
    let b7 := subAll (mMetricKey "interest" "interest_rate") b6
    subAll (mMetricKey "Percent" "treasury_rate") b7
  else a

/-- One branch of lines 906-921: normalize or insert
`measurement_source` for the detected category. -/
def fixSourceFor (src : String) (c : CL) : CL :=
  let a := subAll (mMeasurementAny src) c
  if isSubstrCL "\"measurement_source\"".toList a then a
  else rstripCh '}' a ++ (", \"measurement_source\": \"" ++ src ++ "\"\x7d").toList

/-- Lines 906-921: the measurement-source if-chain. -/
def cleanStageSource (c : CL) : CL :=
  if isSubstrCL "\"category\": \"cryptocurrency\"".toList c then
    fixSourceFor "CoinMarketCap" c
  else if isSubstrCL "\"category\": \"economic_indicator\"".toList c then
    fixSourceFor "FRED database" c
  else if isSubstrCL "\"category\": \"social_events\"".toList c then
    fixSourceFor "ACLED database" c
  else if isSubstrCL "\"category\": \"financial_market\"".toList c then
    fixSourceFor "EOD Historical Data" c
  else c

/-- Lines 924-938: quote fixups, truncation repair, comma/whitespace
normalization and the array wrap. -/
def cleanStageFinal (c : CL) : CL :=
  let a := subAll mQuoteFix c
  let b := if a.getLast? = some '}' then a else a ++ ['}']
  let b1 := if countChar '}' b < countChar '{' b then b ++ ['}'] else b
  let b2 := subAll mCommaBrace b1
  let b3 := subAll mWsCollapse b2
  if b3.head? = some '{' then '[' :: b3 ++ [']'] else b3

/-- Lines 941-948: the final validity check and, on failure, the
aggressive cleanup. -/
def cleanStageVerify (c : CL) : CL :=
  match json_loads ⟨c⟩ with
  | some _ => c
  | none =>
    let a := subAll mAgg1 c
    let b := subAll mAgg2 a
    let c1 := subAll mCommaQuote b
    subAll mColonQuote c1

/-- The whole pipeline applied to the brace-delimited slice. -/
def cleanPipeline (c : CL) : CL :=
  cleanStageVerify (cleanStageFinal (cleanStageSource (cleanStageMetric
    (cleanStageTimeframe (cleanStageTarget (cleanStageA c))))))

/-- `clean_json_content(content)` (lines 822-954).  The catch-all
`except` of the source is unreachable in the model (every step is
total), so the function is the slice-and-pipeline composition. -/
def clean_json_content (content : String) : String :=
  let cs := content.toList
  match strFind cs '{', strRFind cs '}' with
  | some st, some en => ⟨cleanPipeline (sliceCL cs st (en + 1))⟩
  | _, _ => "[]"

/-! ## `repair_json` (lines 956-1012) -/

/-- Lines 979-988: fix a truncated `measurement_source` in a collected
balanced span. -/
def repairFixSource (cur : CL) : CL :=
  if isSubstrCL "\"measurement_source\": \"".toList cur ∧
      ¬ (cur.reverse.take 2 = ['}', '"']) then
    if isSubstrCL "financial_market".toList cur then
      replaceCL cur "\"measurement_source\": \"".toList
        "\"measurement_source\": \"EOD Historical Data\"\x7d".toList
    else if isSubstrCL "cryptocurrency".toList cur then
      replaceCL cur "\"measurement_source\": \"".toList
        "\"measurement_source\": \"CoinMarketCap\"\x7d".toList
    else if isSubstrCL "social_events".toList cur then
      replaceCL cur "\"measurement_source\": \"".toList
        "\"measurement_source\": \"ACLED database\"\x7d".toList
    else if isSubstrCL "economic_indicator".toList cur then
      replaceCL cur "\"measurement_source\": \"".toList
        "\"measurement_source\": \"FRED database\"\x7d".toList
    else cur
  else cur

/-- The character loop of lines 964-996: collect brace-balanced spans
that parse (after the truncation fix); spans that fail to parse are
dropped. -/
def repairCollect : CL → Int → CL → List CL → List CL
  | [], _, _, objs => objs
  | c :: rest, bc, cur, objs =>
    let bc' := if c = '{' then bc + 1 else if c = '}' then bc - 1 else bc
    let cur' := cur ++ [c]
    if bc' = 0 ∧ cur'.any (fun x => ¬ isPyWs x) then
      let objs' :=
        if cur'.head? = some '{' ∧ cur'.getLast? = some '}' then
          let fixed := repairFixSource cur'
          match json_loads ⟨fixed⟩ with
          | some _ => objs ++ [fixed]
          | none => objs
        else objs
      repairCollect rest bc' [] objs'
    else repairCollect rest bc' cur' objs

/-- The character class kept by the aggressive cleanup of line 1008:
`[\[\]{}",:.\d\w\s-]`. -/
def repairKeepChar (c : Char) : Bool :=
  c = '[' || c = ']' || c = '{' || c = '}' || c = '"' || c = ',' || c = ':' ||
    c = '.' || isWordChar c || isPyWs c || c = '-'

/-- `repair_json(content)` (lines 956-1012); `none` models returning
`None` (including via the final `except`). -/
def repair_json (content : String) : Option JVal :=
  let cs := (content.toList.dropWhile isPyWs).reverse.dropWhile isPyWs |>.reverse
  if cs.isEmpty then none
  else
    match repairCollect cs 0 [] [] with
    | [] => none
    | objs =>
      let combined := '[' :: (List.intercalate [','] objs) ++ [']']
      match json_loads ⟨combined⟩ with
      | some v => some v
      | none => json_loads ⟨combined.filter repairKeepChar⟩

/-- Scenario E's raw input: a `financial_market` record truncated in the
middle of its `measurement_source` string. -/
def scenarioE : String :=
  "\x7b\"question\": \"Will AAPL price exceed 500 by 2025/03/31?\", \"timeframe\": \"2025/03/31\", \"category\": \"financial_market\", \"metric\": \"price_target\", \"target_value\": 500, \"measurement_source\": \""

/-- A clean single-line structured list: a fixed point of the
repairer. -/
def cleanListX : String :=
  "[\x7b\"question\": \"Will protests exceed 5 by 2025/03/31?\", \"timeframe\": \"2025/03/31\", \"category\": \"social_events\", \"metric\": \"protest_count\", \"target_value\": 5, \"measurement_source\": \"ACLED database\"\x7d]"

/-- C3's counterexample input: already brace-balanced, but with two
adjacent string literals no fixup repairs. -/
def badJsonX : String := "\x7b\"a\": \"b\" \"c\"\x7d"

/-- The strengthened C5 invariant: every pool record's key is
registered in the used-key set, and keys are pairwise distinct. -/
def poolKeysOk (st : PoolState) : Prop :=
  (∀ q ∈ st.pool, ∃ k, question_key q = some k ∧ k ∈ st.used) ∧
  st.pool.Pairwise (fun a b => question_key a ≠ question_key b)

/-! # Theorems -/

theorem qMul_eq (a b : ℚ) : qMul a b = a * b := by
  rw [qMul, Rat.divInt_eq_div]
  push_cast
  conv_rhs => rw [← Rat.num_div_den a, ← Rat.num_div_den b]
  rw [div_mul_div_comm]

theorem qSub_eq (a b : ℚ) : qSub a b = a - b := by
  rw [qSub, Rat.divInt_eq_div]
  push_cast
  conv_rhs => rw [← Rat.num_div_den a, ← Rat.num_div_den b]
  rw [div_sub_div _ _ (by positivity) (by positivity)]
  congr 1
  ring

theorem qNeg_eq (a : ℚ) : qNeg a = -a := by
  rw [qNeg, Rat.divInt_eq_div]
  push_cast
  rw [neg_div, Rat.num_div_den]

/-! ## Helper lemmas -/

theorem alookup_map_const (v : Nat) (req : List String) (c : String) :
    alookup (req.map (fun x => (x, v))) c = if c ∈ req then some v else none := by
  induction req with
  | nil => rfl
  | cons a as ih =>
    by_cases h : a = c
    · subst h
      simp [alookup, List.find?]
    · have hstep : alookup ((a :: as).map (fun x => (x, v))) c =
          alookup (as.map (fun x => (x, v))) c := by
        simp [alookup, List.find?, h]
      have hmem : (c ∈ a :: as) ↔ (c ∈ as) := by
        constructor
        · intro hm
          rcases List.mem_cons.mp hm with he | hm2
          · exact absurd he.symm h
          · exact hm2
        · exact fun hm => List.mem_cons_of_mem _ hm
      rw [hstep, ih]
      by_cases hc : c ∈ as
      · rw [if_pos hc, if_pos (hmem.mpr hc)]
      · rw [if_neg hc, if_neg (fun hh => hc (hmem.mp hh))]

theorem selection_targets_go_sum (tpc : Nat) (req : List String) :
    ∀ extra, ((selection_targets_go tpc extra req).map (·.2)).sum =
      req.length * tpc + min extra req.length := by
  induction req with
  | nil => simp [selection_targets_go]
  | cons a as ih =>
    intro extra
    cases extra with
    | zero => simp [selection_targets_go, ih 0, Nat.succ_mul, Nat.add_comm]
    | succ e =>
      simp only [selection_targets_go, Nat.lt_irrefl, List.map_cons, List.sum_cons,
        Nat.succ_sub_one, if_pos (Nat.succ_pos e), ih e, List.length_cons,
        Nat.succ_min_succ, Nat.succ_mul]
      omega

theorem selection_targets_go_zero (tpc : Nat) (req : List String) :
    selection_targets_go tpc 0 req = req.map (fun x => (x, tpc)) := by
  induction req with
  | nil => rfl
  | cons a as ih => simp [selection_targets_go, ih]

/-! ## C1 -/

theorem backfill_empty_diverges (fuel : Nat) :
    backfillLoop [] ["cryptocurrency"] 1 fuel [] [] = RunRes.div := by
  induction fuel with
  | zero => rfl
  | succ n ih => exact ih

/-- C1: the claim says `select_diverse_questions` terminates for every
pool and every requested count, returning a short list when the pool is
short.  In fact, with an empty pool and `N = 1` the backfill `while`
loop of lines 746-769 makes no progress and never terminates: the run
fails to finish for every amount of fuel. -/
theorem C1_selector_diverges_on_short_pool (fuel : Nat) :
    select_diverse_questions fuel [] 1 ["cryptocurrency"] = RunRes.div := by
  have h : select_diverse_questions fuel [] 1 ["cryptocurrency"] =
      match backfillLoop [] ["cryptocurrency"] 1 fuel [] [] with
      | .div => RunRes.div
      | .exn => RunRes.exn
      | .ok sel => RunRes.ok (sel.take 1) := rfl
  rw [h, backfill_empty_diverges]

/-! ## C4 -/

/-- C4 (amended): the pool-stage quota of every required category is
`4 * (N div k)` — without remainder distribution — while the
final-selection targets are `N div k` plus one for the first `N mod k`
categories and sum to `N`; the two stages agree only when `k` divides
`N`. -/
theorem C4_pool_and_selection_quotas :
    (∀ (n : Nat) (req : List String), ∀ c ∈ req,
        alookup (pool_targets (category_targets_default n req)) c =
          some ((n / req.length) * 4)) ∧
    (∀ (n : Nat) (req : List String), req ≠ [] →
        ((selection_targets n req).map (·.2)).sum = n) ∧
    (∀ (n : Nat) (req : List String) (c : String), req ≠ [] → req.length ∣ n →
        alookupD (pool_targets (category_targets_default n req)) c 0 =
          4 * alookupD (selection_targets n req) c 0) := by
  refine ⟨?_, ?_, ?_⟩
  · intro n req c hc
    have h : pool_targets (category_targets_default n req) =
        req.map (fun x => (x, (n / req.length) * 4)) := by
      simp [pool_targets, category_targets_default, List.map_map, Function.comp]
    rw [h, alookup_map_const, if_pos hc]
  · intro n req hreq
    have hk : 0 < req.length := List.length_pos.mpr hreq
    rw [selection_targets, selection_targets_go_sum]
    have hlt : n % req.length < req.length := Nat.mod_lt _ hk
    rw [min_eq_left (le_of_lt hlt)]
    exact Nat.div_add_mod n req.length
  · intro n req c hreq hdvd
    have hmod : n % req.length = 0 := by
      obtain ⟨t, rfl⟩ := hdvd
      exact Nat.mul_mod_right _ t
    have hsel : selection_targets n req = req.map (fun x => (x, n / req.length)) := by
      rw [selection_targets, hmod, selection_targets_go_zero]
    have hpool : pool_targets (category_targets_default n req) =
        req.map (fun x => (x, (n / req.length) * 4)) := by
      simp [pool_targets, category_targets_default, List.map_map, Function.comp]
    rw [hsel, hpool, alookupD, alookupD, alookup_map_const, alookup_map_const]
    by_cases hc : c ∈ req
    · rw [if_pos hc, if_pos hc]
      simp [Nat.mul_comm]
    · rw [if_neg hc, if_neg hc]
      rfl

theorem C4_quota_witness :
    ((selection_targets 10 validCategories).map (·.2)).sum = 10 :=
  C4_pool_and_selection_quotas.2.1 10 validCategories (by decide)

/-- C4 counterexample: with `N = 10` over the four required categories
the pool-stage quota of the first category is `8`, but four times its
final-selection target is `12` — the claimed relation fails whenever
`k` does not divide `N`. -/
theorem C4_counterexample :
    alookupD (pool_targets (category_targets_default 10 validCategories))
        "economic_indicator" 0 ≠
      4 * alookupD (selection_targets 10 validCategories) "economic_indicator" 0 := by
  decide

/-! ## C2 -/

/-- C2 counterexample: the validator the Pool Accumulator actually calls
(`validate_single_question`, line 569) accepts a cryptocurrency record
whose question names no known symbol or asset name — the range check is
simply skipped when no symbol occurs in the text. -/
theorem C2_counterexample_unknown_asset_accepted :
    (validate_single_question recDoge btc90 []).1 = true ∧
    recDoge.category = some "cryptocurrency" ∧
    (∀ p ∈ btc90, strIn p.1 (recDoge.question.getD "") = false ∧
      strIn p.2.name (recDoge.question.getD "") = false) := by
  refine ⟨by decide, rfl, by decide⟩

theorem pool_validator_crypto_accept (q : Question) (used : List String)
    (cd : CryptoData) (qt : String)
    (hcat : q.category = some "cryptocurrency") (hq : q.question = some qt)
    (h : validate_question_for_pool q used cd = true) :
    ∃ p ∈ cd, (strIn p.1 qt || strIn p.2.name qt) = true ∧
      ∃ tv v, q.target_value = some tv ∧ poolTargetFloat tv = some v ∧
        qMul p.2.price qHalf ≤ v ∧ v ≤ qMul p.2.price 2 := by
  obtain ⟨qq, qtf, qc, qm, qtv, qms⟩ := q
  have hcat' : qc = some "cryptocurrency" := hcat
  have hq' : qq = some qt := hq
  subst hcat' hq'
  cases qtf with
  | none => exact Bool.noConfusion h
  | some tf =>
  cases qm with
  | none => exact Bool.noConfusion h
  | some met =>
  cases qtv with
  | none => exact Bool.noConfusion h
  | some tv =>
  simp only [validate_question_for_pool] at h
  split at h
  · exact Bool.noConfusion h
  · split at h
    · exact Bool.noConfusion h
    · split at h
      · exact Bool.noConfusion h
      · split at h
        · exact Bool.noConfusion h
        · rename_i v hv
          split at h
          · rename_i hc
            exact absurd hc (by decide)
          · split at h
            · split at h
              · rename_i p hfind
                have hbounds := of_decide_eq_true h
                have hpred := List.find?_some hfind
                exact ⟨p, List.mem_of_find?_eq_some hfind,
                  hpred, tv, v, rfl, hv, hbounds.1, hbounds.2⟩
              · exact Bool.noConfusion h
            · rename_i hc2
              exact absurd trivial hc2

/-- C2 (amended): the stated property does hold of
`validate_question_for_pool` (the dead pool-named validator the claim
also cites): a cryptocurrency record naming no known symbol or asset
name is rejected, and one that passes names a known asset whose price
brackets the target value within [0.5x, 2.0x]. -/
theorem C2_pool_validator_crypto :
    ∀ (q : Question) (used : List String) (cd : CryptoData) (qt : String),
      q.category = some "cryptocurrency" → q.question = some qt →
      ((∀ p ∈ cd, strIn p.1 qt = false ∧ strIn p.2.name qt = false) →
        validate_question_for_pool q used cd = false) ∧
      (validate_question_for_pool q used cd = true →
        ∃ p ∈ cd, (strIn p.1 qt || strIn p.2.name qt) = true ∧
          ∃ tv v, q.target_value = some tv ∧ poolTargetFloat tv = some v ∧
            qMul p.2.price qHalf ≤ v ∧ v ≤ qMul p.2.price 2) := by
  intro q used cd qt hcat hq
  refine ⟨?_, pool_validator_crypto_accept q used cd qt hcat hq⟩
  intro hnone
  cases hres : validate_question_for_pool q used cd with
  | false => rfl
  | true =>
    obtain ⟨p, hp, hpred, -⟩ := pool_validator_crypto_accept q used cd qt hcat hq hres
    rw [(hnone p hp).1, (hnone p hp).2] at hpred
    exact Bool.noConfusion hpred

theorem C2_pool_validator_witness :
    validate_question_for_pool recDoge [] btc90 = false :=
  (C2_pool_validator_crypto recDoge [] btc90
    "Will Dogecoin price exceed 1 by 2025/03/31?" rfl rfl).1 (by decide)

/-! ## C7 -/

theorem single_range_ok_crypto (met : String) (cd : CryptoData) (qt1 : String) (v : ℚ)
    (h : single_range_ok "cryptocurrency" met cd qt1 v = true) :
    ∀ p ∈ cd, strIn p.1 qt1 = true →
      qMul p.2.price qHalf ≤ v ∧ v ≤ qMul p.2.price 2 := by
  intro p hp hin
  by_cases hcd : cd = []
  · subst hcd
    exact absurd hp (List.not_mem_nil p)
  · rw [single_range_ok, if_pos ⟨rfl, hcd⟩] at h
    have hall := List.all_eq_true.mp h p hp
    rw [hin] at hall
    simp only [Bool.not_true, Bool.false_or, Bool.and_eq_true,
      decide_eq_true_eq] at hall
    exact hall

/-- C7: every record `validate_single_question` accepts as
`cryptocurrency` has, for each supplied symbol occurring in its
(normalized) question text, its coerced target value within
[0.5, 2.0] times that symbol's price; Scenario A (BTC at 90000) is
accepted with the value normalized to the number 100000, and Scenario B
(BTC at 40000) is rejected. -/
theorem C7_crypto_price_band :
    (∀ (q : Question) (cd : CryptoData) (countries : List String) (q' : Question),
        validate_single_question q cd countries = (true, q') →
        q'.category = some "cryptocurrency" →
        ∀ p ∈ cd, ∀ qt', q'.question = some qt' → strIn p.1 qt' = true →
          ∃ v, q'.target_value = some (PyVal.f v) ∧
            qMul p.2.price qHalf ≤ v ∧ v ≤ qMul p.2.price 2) ∧
    validate_single_question recA btc90 [] = (true, recA') ∧
    recA'.target_value = some (PyVal.f 100000) ∧
    (validate_single_question recA btc40 []).1 = false := by
  refine ⟨?_, by decide, by decide, by decide⟩
  rintro ⟨qq, qtf, qc, qm, qtv, qms⟩ cd countries q' h hcat p hp qt' hq' hin
  cases qq with
  | none => exact Bool.noConfusion (congrArg Prod.fst h)
  | some qt0 =>
  cases qtf with
  | none => exact Bool.noConfusion (congrArg Prod.fst h)
  | some tf =>
  cases qc with
  | none => exact Bool.noConfusion (congrArg Prod.fst h)
  | some cat =>
  cases qm with
  | none => exact Bool.noConfusion (congrArg Prod.fst h)
  | some met =>
  cases qtv with
  | none => exact Bool.noConfusion (congrArg Prod.fst h)
  | some tv =>
  simp only [validate_single_question] at h
  split at h
  · exact Bool.noConfusion (congrArg Prod.fst h)
  · split at h
    · exact Bool.noConfusion (congrArg Prod.fst h)
    · split at h
      · exact Bool.noConfusion (congrArg Prod.fst h)
      · split at h
        · exact Bool.noConfusion (congrArg Prod.fst h)
        · rename_i v hv
          split at h
          · exact Bool.noConfusion (congrArg Prod.fst h)
          · rename_i hrange
            have hr : single_range_ok cat met cd (normalizeQuestionText cd qt0) v = true :=
              of_not_not hrange
            split at h
            · rename_i hsoc
              split at h
              · injection h with h1 h2
                subst h2
                have hcat2 : cat = "cryptocurrency" := Option.some_inj.mp hcat
                rw [hcat2] at hsoc
                exact absurd hsoc.1 (by decide)
              · exact Bool.noConfusion (congrArg Prod.fst h)
            · injection h with h1 h2
              subst h2
              have hcat2 : cat = "cryptocurrency" := Option.some_inj.mp hcat
              subst hcat2
              have hqt1 : qt' = normalizeQuestionText cd qt0 :=
                Option.some_inj.mp hq'.symm
              rw [hqt1] at hin
              have hb := single_range_ok_crypto met cd _ v hr p hp hin
              exact ⟨v, rfl, hb.1, hb.2⟩

theorem C7_witness :
    qMul (90000 : ℚ) qHalf ≤ (100000 : ℚ) ∧ (100000 : ℚ) ≤ qMul (90000 : ℚ) 2 := by
  obtain ⟨v, hv, h1, h2⟩ := C7_crypto_price_band.1 recA btc90 [] recA'
    (by decide) (by decide) ("BTC", ⟨"Bitcoin", 90000⟩) (by decide) qtA
    (by decide) (by decide)
  have h3 : PyVal.f v = PyVal.f 100000 :=
    Option.some_inj.mp (hv.symm.trans rfl)
  injection h3 with h4
  subst h4
  exact ⟨h1, h2⟩

/-- C9: validation is not atomic — `validate_single_question` rewrites
the question text (Apple → "Apple (AAPL.US)") before the timeframe check
rejects the record, so the rejected record differs from what was passed
in. -/
theorem C9_rejection_after_mutation :
    (validate_single_question recC9 [] []).1 = false ∧
    (validate_single_question recC9 [] []).2 ≠ recC9 ∧
    (validate_single_question recC9 [] []).2.question =
      some "Will Apple (AAPL.US) exceed 500 by 2025/07/01?" ∧
    recC9.question = some "Will Apple stock price exceed 500 by 2025/07/01?" := by
  refine ⟨by decide, by decide, by decide, rfl⟩

/-! ## C5 and C6: invariants of the accumulation loop -/

theorem processBatch_preserve {P : PoolState → Prop} (cd : CryptoData)
    (cs : List String) (tgts : List (String × Nat))
    (hstep : ∀ st q, P st → P (poolAccept cd cs tgts st q)) :
    ∀ qs st, P st → P (processBatch cd cs tgts st qs) := by
  intro qs
  induction qs with
  | nil => intro st h; exact h
  | cons q rest ih =>
    intro st h
    simp only [processBatch]
    split
    · exact hstep st q h
    · exact ih _ (hstep st q h)

theorem genLoop_preserve {P : PoolState → Prop} (cd : CryptoData)
    (cs : List String) (tgts : List (String × Nat)) (psz : Nat)
    (hstep : ∀ st q, P st → P (poolAccept cd cs tgts st q))
    (hatt : ∀ st n, P st → P { st with attempts := n }) :
    ∀ trace st, P st → P (genLoop cd cs tgts psz trace st) := by
  intro trace
  induction trace with
  | nil => intro st h; exact h
  | cons ev rest ih =>
    intro st h
    simp only [genLoop]
    split
    · cases ev with
      | fail => exact ih _ (hatt st _ h)
      | parsed qs =>
        exact ih _ (hatt _ _ (processBatch_preserve cd cs tgts hstep qs st h))
    · exact h

theorem poolAccept_cases (cd : CryptoData) (cs : List String)
    (tgts : List (String × Nat)) (st : PoolState) (q : Question) :
    poolAccept cd cs tgts st q = st ∨
    ∃ q2 k cat, validate_single_question q cd cs = (true, q2) ∧
      question_key q2 = some k ∧ k ∉ st.used ∧
      poolAccept cd cs tgts st q =
        ⟨st.pool ++ [q2], k :: st.used, abump st.counts cat, st.attempts⟩ := by
  unfold poolAccept
  split
  · exact Or.inl rfl
  · rename_i q2 hval
    split
    · exact Or.inl rfl
    · rename_i cat hcat
      split
      · exact Or.inl rfl
      · rename_i cnt hcnt
        split
        · split
          · exact Or.inl rfl
          · rename_i key hkey
            split
            · exact Or.inl rfl
            · rename_i hnot
              exact Or.inr ⟨q2, key, cat, hval, hkey, hnot, rfl⟩
        · exact Or.inl rfl

theorem poolAccept_keysOk (cd : CryptoData) (cs : List String)
    (tgts : List (String × Nat)) (st : PoolState) (q : Question)
    (h : poolKeysOk st) : poolKeysOk (poolAccept cd cs tgts st q) := by
  rcases poolAccept_cases cd cs tgts st q with heq | ⟨q2, k, cat, hval, hk, hnot, heq⟩
  · rw [heq]; exact h
  · rw [heq]
    constructor
    · intro x hx
      rcases List.mem_append.mp hx with hx1 | hx2
      · obtain ⟨k', hk', hmem⟩ := h.1 x hx1
        exact ⟨k', hk', List.mem_cons_of_mem _ hmem⟩
      · rw [List.mem_singleton.mp hx2]
        exact ⟨k, hk, List.mem_cons_self _ _⟩
    · rw [List.pairwise_append]
      refine ⟨h.2, List.pairwise_singleton _ _, ?_⟩
      intro a ha b hb
      rw [List.mem_singleton.mp hb]
      obtain ⟨ka, hka, hmem⟩ := h.1 a ha
      rw [hka, hk]
      intro hcontra
      rw [Option.some_inj.mp hcontra] at hmem
      exact hnot hmem

/-- C5: at every point of pool accumulation no two accepted records
share a uniqueness key `(category, metric, timeframe,
str(float(target_value)))`, and a validated candidate whose key is
already registered leaves the state untouched. -/
theorem C5_no_duplicate_keys :
    (∀ (acledCountries : List String) (cd : CryptoData) (n psz : Nat)
        (req : List String) (ct : Option (List (String × Nat)))
        (trace : List GenEvent),
        (generate_questions_pool_state acledCountries cd n psz req ct
            trace).pool.Pairwise (fun a b => question_key a ≠ question_key b)) ∧
    (∀ (cd : CryptoData) (cs : List String) (tgts : List (String × Nat))
        (st : PoolState) (q q2 : Question)
        (k : String × String × String × String),
        validate_single_question q cd cs = (true, q2) →
        question_key q2 = some k → k ∈ st.used →
        poolAccept cd cs tgts st q = st) := by
  constructor
  · intro acledCountries cd n psz req ct trace
    simp only [generate_questions_pool_state]
    split
    · exact List.Pairwise.nil
    · refine (genLoop_preserve cd acledCountries _ _ (P := poolKeysOk)
        (fun st q h => poolAccept_keysOk _ _ _ st q h)
        (fun st n h => h) trace _ ?_).2
      exact ⟨fun q hq => absurd hq (List.not_mem_nil q), List.Pairwise.nil⟩
  · intro cd cs tgts st q q2 k hval hk hmem
    unfold poolAccept
    rw [hval]
    split
    · rfl
    · rename_i q2b hq2b
      injection hq2b with h1 h2
      subst h2
      split
      · rfl
      · rename_i cat hcat
        split
        · rfl
        · rename_i cnt hcnt
          split
          · split
            · rfl
            · rename_i key hkey
              rw [hk] at hkey
              have hkk : k = key := Option.some_inj.mp hkey
              split
              · rfl
              · rename_i hnot
                rw [← hkk] at hnot
                exact absurd hmem hnot
          · rfl

theorem C5_witness : poolAccept btc90 [] tgts0 st0 recA = st0 :=
  C5_no_duplicate_keys.2 btc90 [] tgts0 st0 recA recA' keyA
    (by decide) (by decide) (by decide)

/-- C6 auxiliary: every record a successful `validate_single_question`
returns carries an in-range `%Y/%m/%d` timeframe and one of the four
fixed categories. -/
theorem validate_true_dateCat (q : Question) (cd : CryptoData)
    (cs : List String) (q' : Question)
    (h : validate_single_question q cd cs = (true, q')) :
    (∃ tf, q'.timeframe = some tf ∧
      ∃ d, strptimeYMD tf = some d ∧ dateInRange d = true) ∧
    (∃ c, q'.category = some c ∧ c ∈ validCategories) := by
  obtain ⟨qq, qtf, qc, qm, qtv, qms⟩ := q
  cases qq with
  | none => exact Bool.noConfusion (congrArg Prod.fst h)
  | some qt0 =>
  cases qtf with
  | none => exact Bool.noConfusion (congrArg Prod.fst h)
  | some tf =>
  cases qc with
  | none => exact Bool.noConfusion (congrArg Prod.fst h)
  | some cat =>
  cases qm with
  | none => exact Bool.noConfusion (congrArg Prod.fst h)
  | some met =>
  cases qtv with
  | none => exact Bool.noConfusion (congrArg Prod.fst h)
  | some tv =>
  simp only [validate_single_question] at h
  split at h
  · exact Bool.noConfusion (congrArg Prod.fst h)
  · rename_i hcat
    have hcat' : cat ∈ validCategories := of_not_not hcat
    split at h
    · exact Bool.noConfusion (congrArg Prod.fst h)
    · rename_i dte hdte
      split at h
      · exact Bool.noConfusion (congrArg Prod.fst h)
      · rename_i hdate
        have hdate' : dateInRange dte = true := of_not_not hdate
        split at h
        · exact Bool.noConfusion (congrArg Prod.fst h)
        · rename_i v hv
          split at h
          · exact Bool.noConfusion (congrArg Prod.fst h)
          · split at h
            · split at h
              · injection h with h1 h2
                subst h2
                exact ⟨⟨tf, rfl, dte, hdte, hdate'⟩, ⟨cat, rfl, hcat'⟩⟩
              · exact Bool.noConfusion (congrArg Prod.fst h)
            · injection h with h1 h2
              subst h2
              exact ⟨⟨tf, rfl, dte, hdte, hdate'⟩, ⟨cat, rfl, hcat'⟩⟩

/-- C6: at every step of accumulation, every record in the pool has a
timeframe parsing as an exact `%Y/%m/%d` date within
[2024-12-01, 2025-06-30] and a category among the fixed four. -/
theorem C6_pool_date_category :
    ∀ (acledCountries : List String) (cd : CryptoData) (n psz : Nat)
      (req : List String) (ct : Option (List (String × Nat)))
      (trace : List GenEvent),
      ∀ q ∈ (generate_questions_pool_state acledCountries cd n psz req ct trace).pool,
        (∃ tf, q.timeframe = some tf ∧
          ∃ d, strptimeYMD tf = some d ∧ dateInRange d = true) ∧
        (∃ c, q.category = some c ∧ c ∈ validCategories) := by
  intro acledCountries cd n psz req ct trace
  simp only [generate_questions_pool_state]
  split
  · intro q hq
    exact absurd hq (List.not_mem_nil q)
  · refine genLoop_preserve cd acledCountries _ _
      (P := fun st => ∀ q ∈ st.pool,
        (∃ tf, q.timeframe = some tf ∧
          ∃ d, strptimeYMD tf = some d ∧ dateInRange d = true) ∧
        (∃ c, q.category = some c ∧ c ∈ validCategories))
      ?_ (fun st n h => h) trace _ ?_
    · intro st q h x hx
      rcases poolAccept_cases cd acledCountries _ st q with heq | ⟨q2, k, cat, hval, -, -, heq⟩
      · rw [heq] at hx
        exact h x hx
      · rw [heq] at hx
        rcases List.mem_append.mp hx with hx1 | hx2
        · exact h x hx1
        · rw [List.mem_singleton.mp hx2]
          exact validate_true_dateCat _ cd acledCountries q2 hval
    · intro q hq
      exact absurd hq (List.not_mem_nil q)

theorem C6_witness :
    (∃ tf, recA'.timeframe = some tf ∧
      ∃ d, strptimeYMD tf = some d ∧ dateInRange d = true) ∧
    (∃ c, recA'.category = some c ∧ c ∈ validCategories) :=
  C6_pool_date_category [] btc90 1 4 ["cryptocurrency"] none trace1 recA' (by decide)

/-! ## C10 -/

/-- C10: with an empty conflict-data country list and `social_events`
required, `generate_questions_pool` removes the first `social_events`
from the caller's category list (an in-place `list.remove`, observed by
the caller), and no other element changes; with a non-empty country
list the list is untouched. -/
theorem C10_social_events_removed :
    (∀ req : List String, "social_events" ∈ req →
      updateRequiredCategories [] req = req.erase "social_events" ∧
      (∃ l1 l2, req = l1 ++ "social_events" :: l2 ∧ "social_events" ∉ l1 ∧
        updateRequiredCategories [] req = l1 ++ l2) ∧
      (∀ x, x ≠ "social_events" →
        (updateRequiredCategories [] req).count x = req.count x)) ∧
    (∀ (countries req : List String), countries ≠ [] →
      updateRequiredCategories countries req = req) := by
  constructor
  · intro req hmem
    have heq : updateRequiredCategories [] req = req.erase "social_events" := by
      simp [updateRequiredCategories, hmem]
    refine ⟨heq, ?_, ?_⟩
    · obtain ⟨l1, l2, hnot, hsplit, herase⟩ := List.exists_erase_eq hmem
      exact ⟨l1, l2, hsplit, hnot, by rw [heq, herase]⟩
    · intro x hx
      rw [heq]
      exact List.count_erase_of_ne hx _
  · intro countries req hne
    simp [updateRequiredCategories, hne]

theorem C10_witness :
    updateRequiredCategories [] ["economic_indicator", "social_events", "cryptocurrency"] =
      ["economic_indicator", "cryptocurrency"] := by
  rw [(C10_social_events_removed.1
    ["economic_indicator", "social_events", "cryptocurrency"] (by decide)).1]
  rfl

/-! ## C3 and C8: the Output Repairer

The aggressive fallback of `clean_json_content` can leave unparseable
text, so "always returns parseable text" fails; what does hold is that
any successful parse of the output is a JSON list.  The proof tracks
the first character through the pipeline: the brace-delimited slice
starts with `{` (or is empty), every fixup preserves that, and the
wrap step turns it into `[`. -/

theorem subScan_head (m : CL → Option (CL × CL)) (c : Char)
    (hm : ∀ cs rep rest, m (c :: cs) = some (rep, rest) → ∃ r2, rep = c :: r2) :
    ∀ (fuel : Nat) (cs : CL), ∃ r, subScan m fuel (c :: cs) = c :: r := by
  intro fuel cs
  cases fuel with
  | zero => exact ⟨cs, rfl⟩
  | succ f =>
    cases hmatch : m (c :: cs) with
    | none => exact ⟨subScan m f cs, by simp [subScan, hmatch]⟩
    | some pr =>
      obtain ⟨r2, hr2⟩ := hm cs pr.1 pr.2 (by rw [hmatch])
      exact ⟨r2 ++ subScan m f pr.2, by simp [subScan, hmatch, hr2]⟩

theorem subAll_head (m : CL → Option (CL × CL)) (c : Char)
    (hm : ∀ cs rep rest, m (c :: cs) = some (rep, rest) → ∃ r2, rep = c :: r2)
    (cs : CL) : ∃ r, subAll m (c :: cs) = c :: r :=
  subScan_head m c hm _ cs

theorem subAll_head_none (m : CL → Option (CL × CL)) (c : Char)
    (h : ∀ cs, m (c :: cs) = none) (cs : CL) : ∃ r, subAll m (c :: cs) = c :: r :=
  subAll_head m c (fun cs2 _ _ hh => Option.noConfusion ((h cs2).symm.trans hh)) cs

theorem replaceAllCL_head (pat rep : CL) (c : Char) (hne : pat.head? ≠ some c)
    (hpat : pat ≠ []) :
    ∀ (fuel : Nat) (cs : CL), ∃ r, replaceAllCL pat rep fuel (c :: cs) = c :: r := by
  intro fuel cs
  match pat, hpat with
  | p :: ps, _ =>
    have hcp : c ≠ p := fun h => hne (by rw [h]; rfl)
    cases fuel with
    | zero => exact ⟨cs, rfl⟩
    | succ f =>
      refine ⟨replaceAllCL (p :: ps) rep f cs, ?_⟩
      simp [replaceAllCL, dropPre, hcp]

theorem replaceCL_head (pat rep : CL) (c : Char) (hne : pat.head? ≠ some c)
    (hpat : pat ≠ []) (cs : CL) : ∃ r, replaceCL (c :: cs) pat rep = c :: r := by
  obtain ⟨r, hr⟩ := replaceAllCL_head pat rep c hne hpat (c :: cs).length cs
  exact ⟨r, hr⟩

theorem rstripCh_head (t c : Char) (h : c ≠ t) (cs : CL) :
    ∃ r, rstripCh t (c :: cs) = c :: r := by
  simp only [rstripCh]
  split
  · exact ⟨[], by rw [if_neg h]⟩
  · exact ⟨_, rfl⟩

theorem mDigits8_at_brace (cs : CL) : mDigits8 ('{' :: cs) = none := by
  rw [mDigits8.eq_def]
  split
  · rename_i a b c d e f g h rest heq
    injection heq with ha htail
    subst ha
    rfl
  · rfl

theorem mAgg1_headSafe :
    ∀ cs rep rest, mAgg1 ('[' :: cs) = some (rep, rest) → ∃ r2, rep = '[' :: r2 := by
  intro cs rep rest h
  rw [mAgg1.eq_def] at h
  split at h
  · rename_i c1 r heq
    injection heq with h1 h2
    subst h1
    split at h
    · exact Option.noConfusion h
    · split at h
      · split at h
        · exact Option.noConfusion h
        · injection h with h3
          injection h3 with h4 h5
          exact ⟨_, h4.symm⟩
      · exact Option.noConfusion h
  · exact Option.noConfusion h

theorem mAgg2_headSafe :
    ∀ cs rep rest, mAgg2 ('[' :: cs) = some (rep, rest) → ∃ r2, rep = '[' :: r2 := by
  intro cs rep rest h
  rw [mAgg2.eq_def] at h
  split at h
  · rename_i c1 r heq
    injection heq with h1 h2
    subst h1
    split at h
    · exact Option.noConfusion h
    · split at h
      · injection h with h3
        injection h3 with h4 h5
        exact ⟨_, h4.symm⟩
      · exact Option.noConfusion h
  · exact Option.noConfusion h

theorem stageA_head (cs : CL) : ∃ r, cleanStageA ('{' :: cs) = '{' :: r := by
  obtain ⟨r1, e1⟩ := replaceCL_head "\n".toList " ".toList '{' (by decide) (by decide) cs
  obtain ⟨r2, e2⟩ := replaceCL_head "\\\"".toList "\"".toList '{' (by decide) (by decide) r1
  obtain ⟨r3, e3⟩ := replaceCL_head "\\\\".toList "\\".toList '{' (by decide) (by decide) r2
  obtain ⟨r4, e4⟩ := subAll_head_none mCommaQuote '{' (fun _ => rfl) r3
  obtain ⟨r5, e5⟩ := subAll_head_none mColonQuote '{' (fun _ => rfl) r4
  obtain ⟨r6, e6⟩ := replaceCL_head "$".toList [] '{' (by decide) (by decide) r5
  obtain ⟨r7, e7⟩ :=
    replaceCL_head "[increase/decrease]".toList "increase".toList '{' (by decide) (by decide) r6
  obtain ⟨r8, e8⟩ := replaceCL_head "YoY".toList [] '{' (by decide) (by decide) r7
  obtain ⟨r9, e9⟩ := replaceCL_head "%".toList [] '{' (by decide) (by decide) r8
  obtain ⟨r10, e10⟩ :=
    replaceCL_head "Trillion".toList "000000000000".toList '{' (by decide) (by decide) r9
  obtain ⟨r11, e11⟩ :=
    replaceCL_head "Billion".toList "000000000".toList '{' (by decide) (by decide) r10
  obtain ⟨r12, e12⟩ :=
    replaceCL_head "Million".toList "000000".toList '{' (by decide) (by decide) r11
  obtain ⟨r13, e13⟩ := subAll_head_none mDateCollapse '{' (fun _ => rfl) r12
  obtain ⟨r14, e14⟩ := subAll_head_none (mNumSuffix 'k' 1000) '{' (fun _ => rfl) r13
  obtain ⟨r15, e15⟩ := subAll_head_none (mNumSuffix 'm' 1000000) '{' (fun _ => rfl) r14
  obtain ⟨r16, e16⟩ := subAll_head_none (mNumSuffix 'b' 1000000000) '{' (fun _ => rfl) r15
  obtain ⟨r17, e17⟩ :=
    subAll_head_none (mNumSuffix 't' 1000000000000) '{' (fun _ => rfl) r16
  refine ⟨r17, ?_⟩
  simp only [cleanStageA]
  rw [e1, e2, e3, e4, e5, e6, e7, e8, e9, e10, e11, e12, e13, e14, e15, e16, e17]

theorem stageTarget_head (cs : CL) : ∃ r, cleanStageTarget ('{' :: cs) = '{' :: r := by
  simp only [cleanStageTarget]
  split
  · obtain ⟨r1, e1⟩ := subAll_head_none mTargetQuoted '{' (fun _ => rfl) cs
    rw [e1]
    split
    · split
      · rename_i g1 hg1
        exact subAll_head_none (mTargetRangeSub g1) '{' (fun _ => rfl) r1
      · exact ⟨r1, rfl⟩
    · exact ⟨r1, rfl⟩
  · exact ⟨cs, rfl⟩

theorem stageTimeframe_head (cs : CL) :
    ∃ r, cleanStageTimeframe ('{' :: cs) = '{' :: r := by
  simp only [cleanStageTimeframe]
  split
  · split
    · rename_i d hd
      exact subAll_head_none (mTimeframeAny d) '{' (fun _ => rfl) cs
    · obtain ⟨r1, e1⟩ :=
        replaceCL_head "YYYY/MM/DD".toList "2025/04/01".toList '{' (by decide) (by decide) cs
      obtain ⟨r2, e2⟩ := subAll_head_none mTimeframeTo '{' (fun _ => rfl) r1
      obtain ⟨r3, e3⟩ := subAll_head_none mTimeframeBy '{' (fun _ => rfl) r2
      obtain ⟨r4, e4⟩ := subAll_head_none mTimeframeYMD '{' (fun _ => rfl) r3
      obtain ⟨r5, e5⟩ := subAll_head_none mTimeframeY '{' (fun _ => rfl) r4
      obtain ⟨r6, e6⟩ := subAll_head_none mTimeframeYM '{' (fun _ => rfl) r5
      obtain ⟨r7, e7⟩ := subAll_head_none mDigits8 '{' mDigits8_at_brace r6
      refine ⟨r7, ?_⟩
      rw [e1, e2, e3, e4, e5, e6, e7]
  · exact ⟨cs, rfl⟩

theorem stageMetric_head (cs : CL) : ∃ r, cleanStageMetric ('{' :: cs) = '{' :: r := by
  have hA : ∃ rA,
      (if isSubstrCL "\"category\": \"financial_market\"".toList ('{' :: cs) then
        subAll (mMetricExact "market_cap_24h" "market_cap_target")
          (subAll (mMetricExact "volume_24h" "volume_target")
            (subAll (mMetricExact "24h_change" "price_target") ('{' :: cs)))
      else ('{' :: cs)) = '{' :: rA := by
    split
    · obtain ⟨r1, e1⟩ :=
        subAll_head_none (mMetricExact "24h_change" "price_target") '{' (fun _ => rfl) cs
      obtain ⟨r2, e2⟩ :=
        subAll_head_none (mMetricExact "volume_24h" "volume_target") '{' (fun _ => rfl) r1
      obtain ⟨r3, e3⟩ :=
        subAll_head_none (mMetricExact "market_cap_24h" "market_cap_target") '{'
          (fun _ => rfl) r2
      exact ⟨r3, by rw [e1, e2, e3]⟩
    · exact ⟨cs, rfl⟩
  obtain ⟨rA, eA⟩ := hA
  simp only [cleanStageMetric]
  rw [eA]
  split
  · have hB : ∃ rB,
        (if isSubstrCL "Treasury".toList ('{' :: rA) then
          subAll mWillTreasury (subAll (mMetricKey "Treasury" "treasury_rate") ('{' :: rA))
        else ('{' :: rA)) = '{' :: rB := by
      split
      · obtain ⟨r1, e1⟩ :=
          subAll_head_none (mMetricKey "Treasury" "treasury_rate") '{' (fun _ => rfl) rA
        obtain ⟨r2, e2⟩ := subAll_head_none mWillTreasury '{' (fun _ => rfl) r1
        exact ⟨r2, by rw [e1, e2]⟩
      · exact ⟨rA, rfl⟩
    obtain ⟨rB, eB⟩ := hB
    rw [eB]
    obtain ⟨r1, e1⟩ :=
      subAll_head_none (mMetricKey "Consumer Price Index" "cpi") '{' (fun _ => rfl) rB
    obtain ⟨r2, e2⟩ :=
      subAll_head_none (mMetricKey "Industrial Production" "industrial_production") '{'
        (fun _ => rfl) r1
    obtain ⟨r3, e3⟩ := subAll_head_none (mMetricKey "GDP" "gdp") '{' (fun _ => rfl) r2
    obtain ⟨r4, e4⟩ :=
      subAll_head_none (mMetricKey "Unemployment" "unemployment_rate") '{' (fun _ => rfl) r3
    obtain ⟨r5, e5⟩ :=
      subAll_head_none (mMetricKey "Inflation" "inflation_rate") '{' (fun _ => rfl) r4
    obtain ⟨r6, e6⟩ :=
      subAll_head_none (mMetricKey "yield" "treasury_rate") '{' (fun _ => rfl) r5
    obtain ⟨r7, e7⟩ :=
      subAll_head_none (mMetricKey "interest" "interest_rate") '{' (fun _ => rfl) r6
    obtain ⟨r8, e8⟩ :=
      subAll_head_none (mMetricKey "Percent" "treasury_rate") '{' (fun _ => rfl) r7
    exact ⟨r8, by rw [e1, e2, e3, e4, e5, e6, e7, e8]⟩
  · exact ⟨rA, rfl⟩

theorem fixSourceFor_head (src : String) (cs : CL) :
    ∃ r, fixSourceFor src ('{' :: cs) = '{' :: r := by
  simp only [fixSourceFor]
  obtain ⟨r1, e1⟩ := subAll_head_none (mMeasurementAny src) '{' (fun _ => rfl) cs
  rw [e1]
  split
  · exact ⟨r1, rfl⟩
  · obtain ⟨r2, e2⟩ := rstripCh_head '}' '{' (by decide) r1
    rw [e2]
    exact ⟨r2 ++ (", \"measurement_source\": \"" ++ src ++ "\"\x7d").toList, rfl⟩

theorem stageSource_head (cs : CL) : ∃ r, cleanStageSource ('{' :: cs) = '{' :: r := by
  simp only [cleanStageSource]
  split
  · exact fixSourceFor_head _ cs
  · split
    · exact fixSourceFor_head _ cs
    · split
      · exact fixSourceFor_head _ cs
      · split
        · exact fixSourceFor_head _ cs
        · exact ⟨cs, rfl⟩

theorem stageFinal_wrap (cs : CL) : ∃ r, cleanStageFinal ('{' :: cs) = '[' :: r := by
  simp only [cleanStageFinal]
  obtain ⟨r1, e1⟩ := subAll_head_none mQuoteFix '{' (fun _ => rfl) cs
  rw [e1]
  have hb : ∃ rb, (if ('{' :: r1).getLast? = some '}' then ('{' :: r1)
      else ('{' :: r1) ++ ['}']) = '{' :: rb := by
    split
    · exact ⟨r1, rfl⟩
    · exact ⟨r1 ++ ['}'], rfl⟩
  obtain ⟨rb, eb⟩ := hb
  rw [eb]
  have hb1 : ∃ rc, (if countChar '}' ('{' :: rb) < countChar '{' ('{' :: rb) then
      ('{' :: rb) ++ ['}'] else ('{' :: rb)) = '{' :: rc := by
    split
    · exact ⟨rb ++ ['}'], rfl⟩
    · exact ⟨rb, rfl⟩
  obtain ⟨rc, ec⟩ := hb1
  rw [ec]
  obtain ⟨r2, e2⟩ := subAll_head_none mCommaBrace '{' (fun _ => rfl) rc
  rw [e2]
  obtain ⟨r3, e3⟩ := subAll_head_none mWsCollapse '{' (fun _ => rfl) r2
  rw [e3]
  rw [if_pos (show ('{' :: r3).head? = some '{' from rfl)]
  exact ⟨('{' :: r3) ++ [']'], rfl⟩

theorem stageVerify_head (cs : CL) : ∃ r, cleanStageVerify ('[' :: cs) = '[' :: r := by
  simp only [cleanStageVerify]
  split
  · exact ⟨cs, rfl⟩
  · obtain ⟨r1, e1⟩ := subAll_head mAgg1 '[' mAgg1_headSafe cs
    rw [e1]
    obtain ⟨r2, e2⟩ := subAll_head mAgg2 '[' mAgg2_headSafe r1
    rw [e2]
    obtain ⟨r3, e3⟩ := subAll_head_none mCommaQuote '[' (fun _ => rfl) r2
    rw [e3]
    exact subAll_head_none mColonQuote '[' (fun _ => rfl) r3

theorem cleanPipeline_lbracket (cs : CL) :
    ∃ r, cleanPipeline ('{' :: cs) = '[' :: r := by
  obtain ⟨r1, e1⟩ := stageA_head cs
  obtain ⟨r2, e2⟩ := stageTarget_head r1
  obtain ⟨r3, e3⟩ := stageTimeframe_head r2
  obtain ⟨r4, e4⟩ := stageMetric_head r3
  obtain ⟨r5, e5⟩ := stageSource_head r4
  obtain ⟨r6, e6⟩ := stageFinal_wrap r5
  obtain ⟨r7, e7⟩ := stageVerify_head r6
  refine ⟨r7, ?_⟩
  simp only [cleanPipeline]
  rw [e1, e2, e3, e4, e5, e6, e7]

theorem jelems_arr :
    ∀ (fuel : Nat) (cs : CL) (acc : List JVal) (v : JVal) (r : CL),
      jelems fuel cs acc = some (v, r) → v.isArr = true := by
  intro fuel
  induction fuel with
  | zero => intro cs acc v r h; exact Option.noConfusion h
  | succ f ih =>
    intro cs acc v r h
    have h2 : (match jvalue f (jskipWs cs) with
        | none => none
        | some (v0, r0) =>
          match jskipWs r0 with
          | ',' :: r2 => jelems f r2 (v0 :: acc)
          | ']' :: r2 => some (JVal.arr (v0 :: acc).reverse, r2)
          | _ => none) = some (v, r) := h
    split at h2
    · exact Option.noConfusion h2
    · split at h2
      · exact ih _ _ _ _ h2
      · injection h2 with h3
        injection h3 with hv hr
        subst hv
        rfl
      · exact Option.noConfusion h2

theorem jvalue_lbracket (fuel : Nat) (cs : CL) (v : JVal) (r : CL)
    (h : jvalue fuel ('[' :: cs) = some (v, r)) : v.isArr = true := by
  cases fuel with
  | zero => exact Option.noConfusion h
  | succ f =>
    have h2 : (match jskipWs cs with
        | ']' :: r2 => some (JVal.arr [], r2)
        | r2 => jelems f r2 []) = some (v, r) := h
    split at h2
    · injection h2 with h3
      injection h3 with hv hr
      subst hv
      rfl
    · exact jelems_arr f _ _ v r h2

theorem json_loads_lbracket (cs : CL) (v : JVal)
    (h : json_loads ⟨'[' :: cs⟩ = some v) : v.isArr = true := by
  have h2 : (match jvalue (('[' :: cs).length + 2) ('[' :: cs) with
      | none => none
      | some (v0, r0) => if jskipWs r0 = [] then some v0 else none) = some v := h
  split at h2
  · exact Option.noConfusion h2
  · rename_i v0 r0 heq
    split at h2
    · injection h2 with h3
      subst h3
      exact jvalue_lbracket _ cs _ r0 heq
    · exact Option.noConfusion h2

theorem strFindAux_some (t : Char) :
    ∀ (cs : CL) (j i : Nat), strFindAux t cs j = some i →
      j ≤ i ∧ ∃ r, cs.drop (i - j) = t :: r := by
  intro cs
  induction cs with
  | nil => intro j i h; exact Option.noConfusion h
  | cons c cs ih =>
    intro j i h
    simp only [strFindAux] at h
    split at h
    · rename_i hc
      injection h with h2
      subst h2
      exact ⟨Nat.le_refl _, cs, by simp [Nat.sub_self, hc]⟩
    · obtain ⟨hle, r, hr⟩ := ih (j + 1) i h
      refine ⟨Nat.le_of_succ_le hle, r, ?_⟩
      have hij : i - j = (i - (j + 1)) + 1 := by omega
      rw [hij, List.drop_succ_cons]
      exact hr

theorem strFind_some (cs : CL) (t : Char) (i : Nat) (h : strFind cs t = some i) :
    ∃ r, cs.drop i = t :: r := by
  obtain ⟨-, r, hr⟩ := strFindAux_some t cs 0 i h
  rw [Nat.sub_zero] at hr
  exact ⟨r, hr⟩

/-- C3 counterexample: on the input `{"a": "b" "c"}` the repairer's
output (the text `[{"a": "b" "c"}]`) does not parse, refuting "its
return value always parses". -/
theorem C3_counterexample_unparseable_output :
    (json_loads (clean_json_content badJsonX)).isSome = false := by decide

/-- C3 (amended): the Output Repairer is a total function (it cannot
raise) and whenever its output parses at all, it parses as a JSON list;
the canonical single-line clean list is returned unchanged.  But the
output does not parse for every input (see the counterexample). -/
theorem C3_output_is_list_when_parseable :
    (∀ (s : String) (v : JVal), json_loads (clean_json_content s) = some v →
      v.isArr = true) ∧
    clean_json_content cleanListX = cleanListX := by
  constructor
  · intro s v h
    simp only [clean_json_content] at h
    split at h
    · rename_i st en hfind hrfind
      obtain ⟨r0, hdrop⟩ := strFind_some s.toList '{' st hfind
      have hshape : sliceCL s.toList st (en + 1) = [] ∨
          ∃ rr, sliceCL s.toList st (en + 1) = '{' :: rr := by
        simp only [sliceCL]
        rw [hdrop]
        cases en + 1 - st with
        | zero => exact Or.inl rfl
        | succ k => exact Or.inr ⟨r0.take k, rfl⟩
      rcases hshape with hsl | ⟨rr, hsl⟩
      · rw [hsl] at h
        have hnone : (json_loads ⟨cleanPipeline []⟩).isSome = false := by decide
        rw [h] at hnone
        exact Bool.noConfusion hnone
      · rw [hsl] at h
        obtain ⟨rr2, hpl⟩ := cleanPipeline_lbracket rr
        rw [hpl] at h
        exact json_loads_lbracket rr2 v h
    · rename_i hmatch
      have hj : json_loads "[]" = some (JVal.arr []) := rfl
      rw [hj] at h
      injection h with h2
      rw [← h2]
      rfl
  · decide

theorem C3_witness :
    JVal.isArr ((json_loads (clean_json_content cleanListX)).getD JVal.null) = true := by
  cases ho : json_loads (clean_json_content cleanListX) with
  | none =>
    have hs : (json_loads (clean_json_content cleanListX)).isSome = true := by decide
    rw [ho] at hs
    exact Bool.noConfusion hs
  | some w =>
    have harr := C3_output_is_list_when_parseable.1 cleanListX w ho
    simpa using harr

/-- C8: on the Scenario E raw text (a `financial_market` record
truncated right after `"measurement_source": "`), `clean_json_content`
returns `'[]'` — the record is dropped, nothing is closed and no
canonical source is inserted — and `repair_json` (whose truncation-fix
branch requires an already balanced span) returns `None`. -/
theorem C8_truncation_not_repaired :
    clean_json_content scenarioE = "[]" ∧
    (repair_json scenarioE).isSome = false ∧
    strIn "EOD Historical Data" (clean_json_content scenarioE) = false := by
  refine ⟨by decide, by decide, by decide⟩

end GenNews
